import Mathlib

/-!
# Linear Nim: the game reducer

A shallow embedding of `src/reducer/GameReducer.jsx` (the pure reducer behind the
game's `useReducer`) together with theorems about it.

Modelling conventions:

* JavaScript numbers that count tokens are integers (`Int`); `x -= 1` is `x - 1`,
  `a % b` is the truncating remainder `Int.tmod`, and a number is falsy exactly
  when it is `0`.
* `winner` may hold any JavaScript value (the test-suite stores a string in it), so
  it is a `JSVal`; `topMove` is a number or `undefined`, so it is an `Option Int`.
* Object identity (`return state` as opposed to `return {...state}`) is recorded by
  the `Returned` type: a function that can hand back the very object it was given
  returns `Returned.input` in that case.
-/

namespace LinearNim

/-! ## JavaScript values -/

/-- The JavaScript values that the `winner` field can hold. -/
inductive JSVal where
  | undefined
  | null
  | bool (b : Bool)
  | num (n : Int)
  | str (s : String)
deriving DecidableEq, Repr

/-- JavaScript truthiness, as used by `if (winner)`. -/
def JSVal.truthy : JSVal → Bool
  | .undefined => false
  | .null => false
  | .bool b => b
  | .num n => n != 0
  | .str s => s != ""

/-! ## Strings and house rules -/

namespace STRINGS

def start : String := "Start the game. Take a token or let the AI play first."
def aiStarts : String := "You let the AI play first."
def aiTurn : String := "Now it's the AI's turn to play."
def justOne : String := "The AI took just one token."
def nthToken : String := "The AI took a %s token."
def yourTurn : String := "It's your turn now. "
def canTake : String := "You can take%s %s%s %s%s"
def stop : String := "."
def letAIPlay : String := " or let the AI play."
def youWin : String := "You took the last token. You win!"
def aiWins : String := "The AI took the last token. The AI wins."
def ordinals : List String := ["first", "second", "third"]

end STRINGS

def STARTING_TOTAL : Int := 12
def MAX_TAKEN : Int := 3

/-! ## State and actions -/

/-- The reducer's state object. `topMove` and `winner` are absent (`undefined`)
until they are set. -/
structure State where
  tokensLeft : Int
  canTake : Int
  playerIsHuman : Bool
  feedback : String
  topMove : Option Int
  winner : JSVal
deriving DecidableEq, Repr

def initialState : State :=
  { tokensLeft := STARTING_TOTAL
    canTake := MAX_TAKEN
    playerIsHuman := true
    feedback := STRINGS.start
    topMove := none
    winner := JSVal.undefined }

/-- The actions the reducer is sent. `TAKE_TOKEN` carries the payload
`{ tokensLeft, canTake }`; `other` stands for an action whose `type` is none of the
three recognised strings. -/
inductive Action where
  | NEW_GAME
  | SET_PLAYER_TO_HUMAN (payload : Bool)
  | TAKE_TOKEN (tokensLeft canTake : Int)
  | other (type : String)
deriving DecidableEq, Repr

/-- Which object a function hands back: the object it was given (`input`), the
module constant `initialState` (`initial`), or a newly built object (`fresh`). -/
inductive Returned where
  | input
  | initial
  | fresh (s : State)
deriving DecidableEq, Repr

/-- The state a `Returned` denotes, given the object that was passed in. -/
def Returned.value (given : State) : Returned → State
  | .input => given
  | .initial => initialState
  | .fresh s => s

/-! ## Generating custom strings -/

/-- One `string.replace("%s", option)`: the first occurrence of `%s` is replaced
(none of the options used here contains a `$` pattern). -/
def replaceFirst : List Char → List Char → List Char
  | [], _ => []
  | '%' :: 's' :: rest, option => option ++ rest
  | c :: rest, option => c :: replaceFirst rest option

/-- The function `replace(string, options)`: each option in turn replaces the first
remaining `%s`. -/
def replace (string : String) (options : List String) : String :=
  options.foldl (fun acc option => String.mk (replaceFirst acc.data option.data)) string

/-- The lookup `STRINGS.ordinals[i]` converted to a string by `String.replace`: an
index outside the array (or `NaN`, modelled as `none`) yields `undefined`. -/
def ordinalAt (i : Option Int) : String :=
  match i with
  | some (Int.ofNat n) => (STRINGS.ordinals.get? n).getD "undefined"
  | _ => "undefined"

/-- The function `getFeedback(state)`. The guard `if (!state)` is omitted: a `State`
is always an object. -/
def getFeedback (state : State) : String :=
  if state.playerIsHuman then
    if state.winner.truthy then
      STRINGS.youWin
    else
      let string := if state.canTake = 3 then STRINGS.yourTurn else ""
      let upto := if state.canTake = 1 then "" else " up to"
      let more := if state.topMove = some state.canTake then "" else " more"
      let stop := if state.canTake = 3 then "." else STRINGS.letAIPlay
      let tokens := if state.canTake > 1 then "tokens" else "token"
      let options := [upto, toString state.canTake, more, tokens, stop]
      string ++ replace STRINGS.canTake options
  else
    if state.winner = JSVal.bool false then
      STRINGS.aiWins
    else if state.tokensLeft = 12 then
      STRINGS.aiStarts
    else if state.topMove = some state.canTake then
      STRINGS.aiTurn
    else if state.topMove = some 1 then
      STRINGS.justOne
    else
      let nth := ordinalAt (state.topMove.map (fun topMove => topMove - state.canTake - 1))
      replace STRINGS.nthToken [nth]

/-! ## The reducer -/

/-- The function `setPlayerToHuman(state, playerIsHuman, autoSwitch)`. -/
def setPlayerToHuman (state : State) (playerIsHuman : Bool) (autoSwitch : Bool) : Returned :=
  if playerIsHuman = state.playerIsHuman then
    Returned.input
  else
    let feedback := if autoSwitch then getFeedback state else ""
    let canTake := min MAX_TAKEN state.tokensLeft
    let topMove := canTake
    let topMove :=
      if !playerIsHuman then
        (if Int.tmod state.tokensLeft (MAX_TAKEN + 1) = 0 then 1
          else Int.tmod state.tokensLeft (MAX_TAKEN + 1))
      else topMove
    let canTake := if !playerIsHuman then topMove else canTake
    let state := { state with
      playerIsHuman := playerIsHuman, canTake := canTake, topMove := some topMove }
    Returned.fresh { state with feedback := feedback ++ " " ++ getFeedback state }

/-- The last three statements of `takeToken`: copy the counts into the state and
recompute the feedback. -/
def takeTokenFinish (state : State) (tokensLeft canTake : Int) : State :=
  let state := { state with canTake := canTake, tokensLeft := tokensLeft }
  { state with feedback := getFeedback state }

/-- The function `takeToken(state, { tokensLeft, canTake })`. It always returns a
new object. -/
def takeToken (state : State) (tokensLeft canTake : Int) : State :=
  let tokensLeft := tokensLeft - 1
  let canTake := canTake - 1
  let state := { state with tokensLeft := tokensLeft, canTake := canTake }
  if canTake = 0 then
    if tokensLeft ≠ 0 then
      let playerIsHuman := !state.playerIsHuman
      (setPlayerToHuman state playerIsHuman playerIsHuman).value state
    else
      takeTokenFinish { state with winner := JSVal.bool state.playerIsHuman } tokensLeft canTake
  else
    takeTokenFinish state tokensLeft canTake

/-- The function `reducer(state, action)`, keeping track of which object is
returned. -/
def reducerReturned (state : State) (action : Action) : Returned :=
  match action with
  | .NEW_GAME => Returned.initial
  | .SET_PLAYER_TO_HUMAN payload =>
    if state.winner ≠ JSVal.undefined then Returned.input
    else setPlayerToHuman state payload false
  | .TAKE_TOKEN tokensLeft canTake =>
    if state.winner ≠ JSVal.undefined then Returned.input
    else Returned.fresh (takeToken state tokensLeft canTake)
  | .other _ =>
    if state.winner ≠ JSVal.undefined then Returned.input
    else Returned.fresh state

/-- The state that `reducer(state, action)` returns. -/
def reducer (state : State) (action : Action) : State :=
  (reducerReturned state action).value state

/-- The action the user interface dispatches to take a token: `TAKE_TOKEN` whose
payload is the current state's `tokensLeft` and `canTake`. -/
def takeAction (state : State) : Action :=
  Action.TAKE_TOKEN state.tokensLeft state.canTake

/-! ## Plays -/

/-- What the players can ask for. A `take` is dispatched with the payload read from
the state at that moment, as the user interface does. -/
inductive Move where
  | newGame
  | setPlayerToHuman (toHuman : Bool)
  | take
deriving DecidableEq, Repr

/-- The action dispatched for a move in a given state. -/
def Move.action (state : State) : Move → Action
  | .newGame => Action.NEW_GAME
  | .setPlayerToHuman toHuman => Action.SET_PLAYER_TO_HUMAN toHuman
  | .take => takeAction state

/-- The state after dispatching a sequence of moves, one after the other. -/
def play (state : State) (moves : List Move) : State :=
  moves.foldl (fun s m => reducer s (m.action s)) state

/-- The states that some sequence of moves reaches from `initialState`. -/
def Reachable (state : State) : Prop :=
  ∃ moves : List Move, play initialState moves = state

/-- The plays in which the human moves first and the AI answers. The indices are
the number of actions dispatched so far, the number of tokens the human has taken
in the current turn, and the value of `canTake` when that turn began.

* on its turn the human dispatches `TAKE_TOKEN` (payload read from the state) while
  it has taken fewer tokens than `canTake` allowed at the start of the turn;
* once it has taken at least one token and still holds the turn, it may hand over
  with `SET_PLAYER_TO_HUMAN false`;
* while the AI holds the turn only `TAKE_TOKEN` is dispatched. -/
inductive HumanFirstPlay : Nat → Nat → Int → State → Prop where
  | start : HumanFirstPlay 0 0 initialState.canTake initialState
  | humanTake {n taken : Nat} {allowed : Int} {s : State} :
      HumanFirstPlay n taken allowed s → s.winner = JSVal.undefined →
      s.playerIsHuman = true → (taken : Int) < allowed →
      HumanFirstPlay (n + 1) (taken + 1) allowed (reducer s (takeAction s))
  | humanPass {n taken : Nat} {allowed : Int} {s : State} :
      HumanFirstPlay n taken allowed s → s.winner = JSVal.undefined →
      s.playerIsHuman = true → 1 ≤ taken →
      HumanFirstPlay (n + 1) 0 (reducer s (Action.SET_PLAYER_TO_HUMAN false)).canTake
        (reducer s (Action.SET_PLAYER_TO_HUMAN false))
  | aiTake {n taken : Nat} {allowed : Int} {s : State} :
      HumanFirstPlay n taken allowed s → s.winner = JSVal.undefined →
      s.playerIsHuman = false →
      HumanFirstPlay (n + 1) 0 (reducer s (takeAction s)).canTake (reducer s (takeAction s))

/-- The loop `while (!state.playerIsHuman && state.winner === undefined)` that
dispatches `TAKE_TOKEN` for the AI; `none` when the fuel runs out first. -/
def aiTurn : Nat → State → Option State
  | 0, _ => none
  | fuel + 1, s =>
    if s.playerIsHuman = false ∧ s.winner = JSVal.undefined then
      aiTurn fuel (reducer s (takeAction s))
    else some s

/-- The number of tokens a perfect human takes: `(tokensLeft % 4) || 1`. -/
def perfectMoves (s : State) : Nat :=
  (if Int.tmod s.tokensLeft 4 = 0 then 1 else Int.tmod s.tokensLeft 4).toNat

/-- The loop `while (moves-- && state.playerIsHuman && state.winner === undefined)`
that dispatches `TAKE_TOKEN` for the human. -/
def humanTakes : Nat → State → State
  | 0, s => s
  | moves + 1, s =>
    if s.playerIsHuman = true ∧ s.winner = JSVal.undefined then
      humanTakes moves (reducer s (takeAction s))
    else s

/-- The game in which the AI plays out each of its turns and the human answers
perfectly, repeated until there is a winner; `none` when the fuel runs out first. -/
def perfectGame : Nat → State → Option State
  | 0, _ => none
  | fuel + 1, s =>
    if s.winner ≠ JSVal.undefined then some s
    else
      match aiTurn fuel s with
      | none => none
      | some s1 => perfectGame fuel (humanTakes (perfectMoves s1) s1)

/-- The plays in which the AI moves first: `SET_PLAYER_TO_HUMAN false` is dispatched
on `initialState`, the AI plays out its turns by `TAKE_TOKEN`, and on each of its
turns the human takes between one token and the `canTake` it was given, handing
over with `SET_PLAYER_TO_HUMAN false` if it stops early. The indices are the
number of actions dispatched after the opening one, the number of tokens the human
has taken in the current turn, the value of `canTake` when that turn began, and
whether the human has ever handed over before using up its allowance. -/
inductive AiFirstPlay : Nat → Nat → Int → Bool → State → Prop where
  | start :
      AiFirstPlay 0 0 (reducer initialState (Action.SET_PLAYER_TO_HUMAN false)).canTake false
        (reducer initialState (Action.SET_PLAYER_TO_HUMAN false))
  | aiTake {n taken : Nat} {allowed : Int} {passed : Bool} {s : State} :
      AiFirstPlay n taken allowed passed s → s.winner = JSVal.undefined →
      s.playerIsHuman = false →
      AiFirstPlay (n + 1) 0 (reducer s (takeAction s)).canTake passed
        (reducer s (takeAction s))
  | humanTake {n taken : Nat} {allowed : Int} {passed : Bool} {s : State} :
      AiFirstPlay n taken allowed passed s → s.winner = JSVal.undefined →
      s.playerIsHuman = true → (taken : Int) < allowed →
      AiFirstPlay (n + 1) (taken + 1) allowed passed (reducer s (takeAction s))
  | humanPass {n taken : Nat} {allowed : Int} {passed : Bool} {s : State} :
      AiFirstPlay n taken allowed passed s → s.winner = JSVal.undefined →
      s.playerIsHuman = true → 1 ≤ taken →
      AiFirstPlay (n + 1) 0 (reducer s (Action.SET_PLAYER_TO_HUMAN false)).canTake true
        (reducer s (Action.SET_PLAYER_TO_HUMAN false))

/-- The AI, holding the turn in state `a` with `n` tokens left, plays its turn out:
the loop needs exactly `n % 4` takes, after which `n - n % 4` tokens are left, a
multiple of 4, and either the pool is empty and the AI has won or the human holds
the turn with `canTake = topMove = 3`. -/
def AiLeavesMultipleOfFour (n : Int) (a : State) : Prop :=
  ∃ r : State,
    (∀ fuel : Nat, (n % 4).toNat < fuel → aiTurn fuel a = some r) ∧
    aiTurn (n % 4).toNat a = none ∧
    r.tokensLeft = n - n % 4 ∧
    r.tokensLeft % 4 = 0 ∧
    ((r.tokensLeft = 0 ∧ r.winner = JSVal.bool false) ∨
     (r.winner = JSVal.undefined ∧ r.playerIsHuman = true ∧ r.canTake = 3 ∧
      r.topMove = some 3))

/-! ## Calls of `getFeedback` -/

/-- The states on which `setPlayerToHuman` calls `getFeedback`, in order: the state
it was given when `autoSwitch` is truthy, then the updated state (before its
feedback is assigned). There is no call when the function returns early. -/
def setPlayerToHumanCalls (state : State) (playerIsHuman : Bool) (autoSwitch : Bool) :
    List State :=
  if playerIsHuman = state.playerIsHuman then []
  else
    (if autoSwitch then [state] else []) ++
      [{ (setPlayerToHuman state playerIsHuman autoSwitch).value state with
          feedback := state.feedback }]

/-- The states on which `takeToken` calls `getFeedback`, directly or through
`setPlayerToHuman`. -/
def takeTokenCalls (state : State) (tokensLeft canTake : Int) : List State :=
  let tokensLeft := tokensLeft - 1
  let canTake := canTake - 1
  let state := { state with tokensLeft := tokensLeft, canTake := canTake }
  if canTake = 0 then
    if tokensLeft ≠ 0 then
      let playerIsHuman := !state.playerIsHuman
      setPlayerToHumanCalls state playerIsHuman playerIsHuman
    else
      [{ state with winner := JSVal.bool state.playerIsHuman }]
  else
    [state]

/-- The states on which `getFeedback` is called while `reducer(state, action)`
runs. -/
def getFeedbackCalls (state : State) (action : Action) : List State :=
  match action with
  | .NEW_GAME => []
  | .SET_PLAYER_TO_HUMAN payload =>
    if state.winner ≠ JSVal.undefined then [] else setPlayerToHumanCalls state payload false
  | .TAKE_TOKEN tokensLeft canTake =>
    if state.winner ≠ JSVal.undefined then [] else takeTokenCalls state tokensLeft canTake
  | .other _ => []

/-- The condition under which `getFeedback` reaches its last branch, the lookup
`STRINGS.ordinals[topMove - canTake - 1]`. -/
def ReachesOrdinalBranch (x : State) : Prop :=
  x.playerIsHuman = false ∧ x.winner ≠ JSVal.bool false ∧ x.tokensLeft ≠ 12 ∧
  x.topMove ≠ some x.canTake ∧ x.topMove ≠ some 1

/-- The number of tokens taken so far in the current turn, after a move: a restart
or a change of side starts a new turn, a take that keeps the side adds one. -/
def turnCount (s : State) (k : Nat) : Move → Nat
  | .newGame => 0
  | .setPlayerToHuman toHuman =>
    if s.winner = JSVal.undefined ∧ s.playerIsHuman ≠ toHuman then 0 else k
  | .take =>
    if s.winner ≠ JSVal.undefined then k
    else if (reducer s (takeAction s)).playerIsHuman = s.playerIsHuman then k + 1
    else 0

/-- The state after a sequence of moves, together with the number of tokens taken
so far in the current turn. -/
def playCounting (s : State) (k : Nat) : List Move → State × Nat
  | [] => (s, k)
  | m :: ms => playCounting (reducer s (m.action s)) (turnCount s k m) ms


/-! ## Completion of a call -/

/-- How a call of a JavaScript function completes: it returns an object or it
throws. -/
inductive Completion where
  | returned (r : Returned)
  | thrown (message : String)
deriving DecidableEq, Repr

/-- How a call `reducer(state, action)` completes. Neither `reducer` nor the
functions it calls contain a `throw`, and on a state object and a typed payload no
operation they use can raise, so every call returns. -/
def reducerCompletion (state : State) (action : Action) : Completion :=
  Completion.returned (reducerReturned state action)


/-! ## Invariants -/

/-- The bounds that every reachable state satisfies. -/
def Bounded (s : State) : Prop :=
  0 ≤ s.canTake ∧ s.canTake ≤ s.tokensLeft ∧ s.tokensLeft ≤ 12 ∧ s.canTake ≤ 3 ∧
  (s.winner = JSVal.undefined → 1 ≤ s.canTake) ∧
  (s.winner ≠ JSVal.undefined → s.tokensLeft = 0)

/-- What holds along a play in which the human moves first: the human holds the
turn on a pool that was a multiple of 4 when the turn began, or the AI holds the
turn and plans to take the pool down to a multiple of 4, or the AI has won. -/
def HumanFirstInv (n taken : Nat) (allowed : Int) (s : State) : Prop :=
  (s.winner = JSVal.undefined ∧ s.playerIsHuman = true ∧ allowed = 3 ∧
    s.canTake = 3 - (taken : Int) ∧ 1 ≤ s.canTake ∧ (s.tokensLeft + (taken : Int)) % 4 = 0 ∧
    4 ≤ s.tokensLeft + (taken : Int) ∧
    4 * (n : Int) + 5 * s.tokensLeft + (taken : Int) ≤ 60) ∨
  (s.winner = JSVal.undefined ∧ s.playerIsHuman = false ∧ 1 ≤ s.canTake ∧ s.canTake ≤ 3 ∧
    s.tokensLeft % 4 = s.canTake ∧ 1 ≤ s.tokensLeft ∧
    4 * (n : Int) + 5 * s.tokensLeft ≤ 60 + s.canTake) ∨
  (s.winner = JSVal.bool false ∧ s.tokensLeft = 0 ∧ 4 * (n : Int) ≤ 60)

/-- What holds along a play in which the AI moves first. While the human has never
handed over early, the AI faces multiples of 4 and the human faces pools that are
3 modulo 4, and the game can only end with the human as winner; after the human
has handed over early the roles are exchanged. -/
def AiFirstInv (n taken : Nat) (allowed : Int) (passed : Bool) (s : State) : Prop :=
  (passed = false ∧
    ((s.winner = JSVal.undefined ∧ s.playerIsHuman = false ∧ s.canTake = 1 ∧
        s.tokensLeft % 4 = 0 ∧ 4 ≤ s.tokensLeft ∧ 4 * (n : Int) + 5 * s.tokensLeft ≤ 61) ∨
     (s.winner = JSVal.undefined ∧ s.playerIsHuman = true ∧ allowed = 3 ∧
        s.canTake = 3 - (taken : Int) ∧ 1 ≤ s.canTake ∧
        (s.tokensLeft + (taken : Int)) % 4 = 3 ∧ 3 ≤ s.tokensLeft + (taken : Int) ∧
        4 * (n : Int) + 5 * s.tokensLeft + (taken : Int) ≤ 60) ∨
     (s.winner = JSVal.bool true ∧ s.tokensLeft = 0 ∧ 4 * (n : Int) ≤ 60))) ∨
  (passed = true ∧
    ((s.winner = JSVal.undefined ∧ s.playerIsHuman = false ∧ 1 ≤ s.canTake ∧
        s.canTake ≤ 3 ∧ s.tokensLeft % 4 = s.canTake ∧ 1 ≤ s.tokensLeft ∧
        4 * (n : Int) + 5 * s.tokensLeft ≤ 61 + s.canTake) ∨
     (s.winner = JSVal.undefined ∧ s.playerIsHuman = true ∧ allowed = 3 ∧
        s.canTake = 3 - (taken : Int) ∧ 1 ≤ s.canTake ∧
        (s.tokensLeft + (taken : Int)) % 4 = 0 ∧ 4 ≤ s.tokensLeft + (taken : Int) ∧
        4 * (n : Int) + 5 * s.tokensLeft + (taken : Int) ≤ 61) ∨
     (s.winner = JSVal.bool false ∧ s.tokensLeft = 0 ∧ 4 * (n : Int) ≤ 61)))

/-- What holds of a reachable state and its turn count: the bounds, and while the
AI holds the turn `topMove` is set, is at most 3, and exceeds `canTake` by the
number of tokens the AI has taken in this turn. -/
def Counted (s : State) (k : Nat) : Prop :=
  Bounded s ∧
  (s.winner = JSVal.undefined → s.playerIsHuman = false →
    ∃ top : Int, s.topMove = some top ∧ top = s.canTake + (k : Int) ∧ top ≤ 3)

/-! ## Helper lemmas -/

theorem tmod_four_of_nonneg (t : Int) (h : 0 ≤ t) : Int.tmod t 4 = t % 4 := by
  rw [Int.tmod_eq_emod h (by decide)]

/-- The AI's planned take `(tokensLeft % 4) || 1`, on a pool that is not negative. -/
theorem aiPlan_eq (t : Int) (h : 0 ≤ t) :
    (if Int.tmod t 4 = 0 then (1 : Int) else Int.tmod t 4) = (if t % 4 = 0 then 1 else t % 4) := by
  rw [tmod_four_of_nonneg t h]

theorem take_terminal (s : State) (hw : s.winner ≠ JSVal.undefined) :
    reducer s (takeAction s) = s := by
  simp [reducer, reducerReturned, takeAction, Returned.value, hw]

theorem take_continue_fields (s : State) (hw : s.winner = JSVal.undefined)
    (hc : s.canTake ≠ 1) :
    (reducer s (takeAction s)).tokensLeft = s.tokensLeft - 1 ∧
    (reducer s (takeAction s)).canTake = s.canTake - 1 ∧
    (reducer s (takeAction s)).playerIsHuman = s.playerIsHuman ∧
    (reducer s (takeAction s)).topMove = s.topMove ∧
    (reducer s (takeAction s)).winner = JSVal.undefined := by
  have hne : s.canTake - 1 ≠ 0 := by omega
  simp [reducer, reducerReturned, takeAction, takeToken, takeTokenFinish, Returned.value,
    hw, hne]

theorem take_win_fields (s : State) (hw : s.winner = JSVal.undefined)
    (hc : s.canTake = 1) (ht : s.tokensLeft = 1) :
    (reducer s (takeAction s)).tokensLeft = 0 ∧
    (reducer s (takeAction s)).canTake = 0 ∧
    (reducer s (takeAction s)).playerIsHuman = s.playerIsHuman ∧
    (reducer s (takeAction s)).winner = JSVal.bool s.playerIsHuman := by
  simp [reducer, reducerReturned, takeAction, takeToken, takeTokenFinish, Returned.value,
    hw, hc, ht]

theorem take_pass_fields (s : State) (hw : s.winner = JSVal.undefined)
    (hc : s.canTake = 1) (ht : s.tokensLeft ≠ 1) :
    (reducer s (takeAction s)).tokensLeft = s.tokensLeft - 1 ∧
    (reducer s (takeAction s)).playerIsHuman = (!s.playerIsHuman) ∧
    (reducer s (takeAction s)).winner = JSVal.undefined ∧
    (reducer s (takeAction s)).topMove = some (reducer s (takeAction s)).canTake ∧
    (reducer s (takeAction s)).canTake =
      (if s.playerIsHuman then
        (if Int.tmod (s.tokensLeft - 1) 4 = 0 then 1 else Int.tmod (s.tokensLeft - 1) 4)
       else min 3 (s.tokensLeft - 1)) := by
  have hne : s.tokensLeft - 1 ≠ 0 := by omega
  cases hp : s.playerIsHuman <;>
    simp [reducer, reducerReturned, takeAction, takeToken, setPlayerToHuman,
      Returned.value, MAX_TAKEN, hw, hc, hp, hne]

theorem set_noop (s : State) (b : Bool)
    (h : s.winner ≠ JSVal.undefined ∨ s.playerIsHuman = b) :
    reducer s (Action.SET_PLAYER_TO_HUMAN b) = s := by
  by_cases hw : s.winner = JSVal.undefined
  · rcases h with h | h
    · exact absurd hw h
    · simp [reducer, reducerReturned, setPlayerToHuman, Returned.value, hw, h]
  · simp [reducer, reducerReturned, Returned.value, hw]

theorem set_fields (s : State) (b : Bool) (hw : s.winner = JSVal.undefined)
    (hb : s.playerIsHuman ≠ b) :
    (reducer s (Action.SET_PLAYER_TO_HUMAN b)).tokensLeft = s.tokensLeft ∧
    (reducer s (Action.SET_PLAYER_TO_HUMAN b)).playerIsHuman = b ∧
    (reducer s (Action.SET_PLAYER_TO_HUMAN b)).winner = JSVal.undefined ∧
    (reducer s (Action.SET_PLAYER_TO_HUMAN b)).topMove =
      some (reducer s (Action.SET_PLAYER_TO_HUMAN b)).canTake ∧
    (reducer s (Action.SET_PLAYER_TO_HUMAN b)).canTake =
      (if b then min 3 s.tokensLeft
        else if Int.tmod s.tokensLeft 4 = 0 then 1 else Int.tmod s.tokensLeft 4) := by
  have hb2 : ¬ (b = s.playerIsHuman) := fun h => hb h.symm
  cases b <;>
    simp [reducer, reducerReturned, setPlayerToHuman, Returned.value, MAX_TAKEN, hw, hb2]

theorem play_cons (s : State) (m : Move) (ms : List Move) :
    play s (m :: ms) = play (reducer s (m.action s)) ms := rfl

theorem bounded_initial : Bounded initialState := by
  simp [Bounded, initialState, STARTING_TOTAL, MAX_TAKEN]

theorem bounded_step (s : State) (m : Move) (h : Bounded s) :
    Bounded (reducer s (m.action s)) := by
  obtain ⟨h0, h1, h2, h3, h4, h5⟩ := h
  cases m with
  | newGame => exact bounded_initial
  | setPlayerToHuman b =>
    by_cases hw : s.winner = JSVal.undefined
    · by_cases hb : s.playerIsHuman = b
      · rw [Move.action, set_noop s b (Or.inr hb)]
        exact ⟨h0, h1, h2, h3, h4, h5⟩
      · obtain ⟨e1, _, e3, _, e5⟩ := set_fields s b hw hb
        have hc := h4 hw
        rw [aiPlan_eq _ (by omega)] at e5
        simp only [Move.action, Bounded, e1, e3, e5]
        cases b <;> simp <;> omega
    · rw [Move.action, set_noop s b (Or.inl hw)]
      exact ⟨h0, h1, h2, h3, h4, h5⟩
  | take =>
    by_cases hw : s.winner = JSVal.undefined
    · have hc := h4 hw
      by_cases hc1 : s.canTake = 1
      · by_cases ht : s.tokensLeft = 1
        · obtain ⟨e1, e2, _, e4⟩ := take_win_fields s hw hc1 ht
          simp [Move.action, Bounded, e1, e2, e4]
        · obtain ⟨e1, _, e3, _, e5⟩ := take_pass_fields s hw hc1 ht
          rw [aiPlan_eq _ (by omega)] at e5
          simp only [Move.action, Bounded, e1, e3, e5]
          cases s.playerIsHuman <;> simp <;> omega
      · obtain ⟨e1, e2, _, _, e5⟩ := take_continue_fields s hw hc1
        simp only [Move.action, Bounded, e1, e2, e5]
        simp
        omega
    · rw [Move.action, take_terminal s hw]
      exact ⟨h0, h1, h2, h3, h4, h5⟩

theorem bounded_play (ms : List Move) (s : State) (h : Bounded s) : Bounded (play s ms) := by
  induction ms generalizing s with
  | nil => exact h
  | cons m ms ih => exact ih _ (bounded_step s m h)

theorem bounded_of_reachable (s : State) (h : Reachable s) : Bounded s := by
  obtain ⟨ms, rfl⟩ := h
  exact bounded_play ms _ bounded_initial

theorem aiTurn_mono (fuel : Nat) (s r : State) (h : aiTurn fuel s = some r) :
    aiTurn (fuel + 1) s = some r := by
  induction fuel generalizing s with
  | zero => simp [aiTurn] at h
  | succ f ih =>
    rw [aiTurn] at h ⊢
    split_ifs at h ⊢ with hc
    · exact ih _ h
    · exact h

theorem perfectGame_mono (fuel : Nat) (s r : State) (h : perfectGame fuel s = some r) :
    perfectGame (fuel + 1) s = some r := by
  induction fuel generalizing s with
  | zero => simp [perfectGame] at h
  | succ f ih =>
    rw [perfectGame] at h ⊢
    split_ifs at h ⊢ with hw
    · exact h
    · cases ha : aiTurn f s with
      | none => simp [ha] at h
      | some s1 =>
        rw [ha] at h
        rw [aiTurn_mono f s s1 ha]
        exact ih _ h

theorem perfectGame_mono_le {fuel fuel2 : Nat} {s r : State}
    (h : perfectGame fuel s = some r) (hle : fuel ≤ fuel2) :
    perfectGame fuel2 s = some r := by
  induction hle with
  | refl => exact h
  | step _ ih => exact perfectGame_mono _ s r ih

theorem humanFirstInv_of_play {n taken : Nat} {allowed : Int} {s : State}
    (h : HumanFirstPlay n taken allowed s) : HumanFirstInv n taken allowed s := by
  induction h with
  | start =>
    left
    simp [initialState, STARTING_TOTAL, MAX_TAKEN]
  | @humanTake n taken allowed s _ hw hp hlt ih =>
    rcases ih with ⟨_, _, ha, hc, hc1, h6, h7, h8⟩ | ⟨_, hp2, _⟩ | ⟨hw2, _⟩
    · by_cases hc1 : s.canTake = 1
      · have ht : s.tokensLeft ≠ 1 := by omega
        obtain ⟨e1, e2, e3, _, e5⟩ := take_pass_fields s hw hc1 ht
        rw [aiPlan_eq _ (by omega)] at e5
        right; left
        rw [hp] at e2 e5
        simp only [if_true] at e5
        refine ⟨e3, by simpa using e2, ?_, ?_, ?_, ?_, ?_⟩
        all_goals omega
      · obtain ⟨e1, e2, e3, _, e5⟩ := take_continue_fields s hw hc1
        left
        refine ⟨e5, by rw [e3, hp], ha, ?_, ?_, ?_, ?_, ?_⟩
        all_goals omega
    · rw [hp] at hp2; exact absurd hp2 (by decide)
    · rw [hw] at hw2; exact absurd hw2 (by decide)
  | @humanPass n taken allowed s _ hw hp h1 ih =>
    rcases ih with ⟨_, _, ha, hc, hc1, h6, h7, h8⟩ | ⟨_, hp2, _⟩ | ⟨hw2, _⟩
    · obtain ⟨e1, e2, e3, _, e5⟩ := set_fields s false hw (by rw [hp]; decide)
      rw [aiPlan_eq _ (by omega)] at e5
      simp only [Bool.false_eq_true, if_false] at e5
      right; left
      refine ⟨e3, e2, ?_, ?_, ?_, ?_, ?_⟩
      all_goals omega
    · rw [hp] at hp2; exact absurd hp2 (by decide)
    · rw [hw] at hw2; exact absurd hw2 (by decide)
  | @aiTake n taken allowed s _ hw hp ih =>
    rcases ih with ⟨_, hp2, _⟩ | ⟨_, _, hc1, hc3, h5, h6, h7⟩ | ⟨hw2, _⟩
    · rw [hp] at hp2; exact absurd hp2 (by decide)
    · by_cases hc : s.canTake = 1
      · by_cases ht : s.tokensLeft = 1
        · obtain ⟨e1, e2, e3, e4⟩ := take_win_fields s hw hc ht
          right; right
          refine ⟨by rw [e4, hp], e1, ?_⟩
          push_cast
          omega
        · obtain ⟨e1, e2, e3, _, e5⟩ := take_pass_fields s hw hc ht
          rw [hp] at e2 e5
          simp only [Bool.false_eq_true, if_false] at e5
          left
          refine ⟨e3, by simpa using e2, ?_, ?_, ?_, ?_, ?_, ?_⟩
          all_goals omega
      · obtain ⟨e1, e2, e3, _, e5⟩ := take_continue_fields s hw hc
        right; left
        refine ⟨e5, by rw [e3, hp], ?_, ?_, ?_, ?_, ?_⟩
        all_goals omega
    · rw [hw] at hw2; exact absurd hw2 (by decide)

theorem getFeedback_feedback (s : State) (fb : String) :
    getFeedback { s with feedback := fb } = getFeedback s := rfl

theorem take_tokensLeft (s : State) (hw : s.winner = JSVal.undefined) :
    (reducer s (takeAction s)).tokensLeft = s.tokensLeft - 1 := by
  by_cases hc1 : s.canTake = 1
  · by_cases ht : s.tokensLeft = 1
    · rw [(take_win_fields s hw hc1 ht).1, ht]; rfl
    · exact (take_pass_fields s hw hc1 ht).1
  · exact (take_continue_fields s hw hc1).1

theorem take_continue_feedback (s : State) (hw : s.winner = JSVal.undefined)
    (hc : s.canTake ≠ 1) :
    (reducer s (takeAction s)).feedback = getFeedback (reducer s (takeAction s)) := by
  have hne : s.canTake - 1 ≠ 0 := by omega
  simp [reducer, reducerReturned, takeAction, takeToken, takeTokenFinish, Returned.value,
    hw, hne]
  rfl

theorem set_feedback (s : State) (b : Bool) (hw : s.winner = JSVal.undefined)
    (hb : s.playerIsHuman ≠ b) :
    (reducer s (Action.SET_PLAYER_TO_HUMAN b)).feedback =
      "" ++ " " ++ getFeedback (reducer s (Action.SET_PLAYER_TO_HUMAN b)) := by
  have hb2 : ¬ (b = s.playerIsHuman) := fun h => hb h.symm
  simp [reducer, reducerReturned, setPlayerToHuman, Returned.value, hw, hb2]
  rfl

theorem take_pass_feedback (s : State) (hw : s.winner = JSVal.undefined)
    (hc : s.canTake = 1) (ht : s.tokensLeft ≠ 1) :
    (reducer s (takeAction s)).feedback =
      (if s.playerIsHuman then ""
        else getFeedback { s with tokensLeft := s.tokensLeft - 1, canTake := s.canTake - 1 })
      ++ " " ++ getFeedback (reducer s (takeAction s)) := by
  have hne : s.tokensLeft - 1 ≠ 0 := by omega
  cases hp : s.playerIsHuman <;>
    simp [reducer, reducerReturned, takeAction, takeToken, setPlayerToHuman,
      Returned.value, hw, hc, hp, hne] <;> rfl

theorem aiFirstInv_of_play {n taken : Nat} {allowed : Int} {passed : Bool} {s : State}
    (h : AiFirstPlay n taken allowed passed s) : AiFirstInv n taken allowed passed s := by
  induction h with
  | start =>
    left
    refine ⟨rfl, Or.inl ?_⟩
    decide
  | @aiTake n taken allowed passed s _ hw hp ih =>
    rcases ih with ⟨hpass, h⟩ | ⟨hpass, h⟩
    · rcases h with ⟨_, _, hc, h4, h5, h6⟩ | ⟨_, hp2, _⟩ | ⟨hw2, _⟩
      · have ht : s.tokensLeft ≠ 1 := by omega
        obtain ⟨e1, e2, e3, _, e5⟩ := take_pass_fields s hw hc ht
        rw [hp] at e2 e5
        simp only [Bool.false_eq_true, if_false] at e5
        left
        refine ⟨hpass, Or.inr (Or.inl ⟨e3, by simpa using e2, ?_, ?_, ?_, ?_, ?_, ?_⟩)⟩
        all_goals omega
      · rw [hp] at hp2; exact absurd hp2 (by decide)
      · rw [hw] at hw2; exact absurd hw2 (by decide)
    · rcases h with ⟨_, _, hc1, hc3, h5, h6, h7⟩ | ⟨_, hp2, _⟩ | ⟨hw2, _⟩
      · right
        refine ⟨hpass, ?_⟩
        by_cases hc : s.canTake = 1
        · by_cases ht : s.tokensLeft = 1
          · obtain ⟨e1, e2, e3, e4⟩ := take_win_fields s hw hc ht
            refine Or.inr (Or.inr ⟨by rw [e4, hp], e1, ?_⟩)
            omega
          · obtain ⟨e1, e2, e3, _, e5⟩ := take_pass_fields s hw hc ht
            rw [hp] at e2 e5
            simp only [Bool.false_eq_true, if_false] at e5
            refine Or.inr (Or.inl ⟨e3, by simpa using e2, ?_, ?_, ?_, ?_, ?_, ?_⟩)
            all_goals omega
        · obtain ⟨e1, e2, e3, _, e5⟩ := take_continue_fields s hw hc
          refine Or.inl ⟨e5, by rw [e3, hp], ?_, ?_, ?_, ?_, ?_⟩
          all_goals omega
      · rw [hp] at hp2; exact absurd hp2 (by decide)
      · rw [hw] at hw2; exact absurd hw2 (by decide)
  | @humanTake n taken allowed passed s _ hw hp hlt ih =>
    rcases ih with ⟨hpass, h⟩ | ⟨hpass, h⟩
    · rcases h with ⟨_, hp2, _⟩ | ⟨_, _, ha, hc, hc1, h6, h7, h8⟩ | ⟨hw2, _⟩
      · rw [hp] at hp2; exact absurd hp2 (by decide)
      · left
        refine ⟨hpass, ?_⟩
        by_cases hc1 : s.canTake = 1
        · by_cases ht : s.tokensLeft = 1
          · obtain ⟨e1, e2, e3, e4⟩ := take_win_fields s hw hc1 ht
            refine Or.inr (Or.inr ⟨by rw [e4, hp], e1, ?_⟩)
            omega
          · obtain ⟨e1, e2, e3, _, e5⟩ := take_pass_fields s hw hc1 ht
            rw [aiPlan_eq _ (by omega)] at e5
            rw [hp] at e2 e5
            simp only [if_true] at e5
            refine Or.inl ⟨e3, by simpa using e2, ?_, ?_, ?_, ?_⟩
            all_goals omega
        · obtain ⟨e1, e2, e3, _, e5⟩ := take_continue_fields s hw hc1
          refine Or.inr (Or.inl ⟨e5, by rw [e3, hp], ha, ?_, ?_, ?_, ?_, ?_⟩)
          all_goals omega
      · rw [hw] at hw2; exact absurd hw2 (by decide)
    · rcases h with ⟨_, hp2, _⟩ | ⟨_, _, ha, hc, hc1, h6, h7, h8⟩ | ⟨hw2, _⟩
      · rw [hp] at hp2; exact absurd hp2 (by decide)
      · right
        refine ⟨hpass, ?_⟩
        by_cases hc1 : s.canTake = 1
        · have ht : s.tokensLeft ≠ 1 := by omega
          obtain ⟨e1, e2, e3, _, e5⟩ := take_pass_fields s hw hc1 ht
          rw [aiPlan_eq _ (by omega)] at e5
          rw [hp] at e2 e5
          simp only [if_true] at e5
          refine Or.inl ⟨e3, by simpa using e2, ?_, ?_, ?_, ?_, ?_⟩
          all_goals omega
        · obtain ⟨e1, e2, e3, _, e5⟩ := take_continue_fields s hw hc1
          refine Or.inr (Or.inl ⟨e5, by rw [e3, hp], ha, ?_, ?_, ?_, ?_, ?_⟩)
          all_goals omega
      · rw [hw] at hw2; exact absurd hw2 (by decide)
  | @humanPass n taken allowed passed s _ hw hp h1 ih =>
    obtain ⟨e1, e2, e3, _, e5⟩ := set_fields s false hw (by rw [hp]; decide)
    simp only [Bool.false_eq_true, if_false] at e5
    right
    refine ⟨rfl, ?_⟩
    rcases ih with ⟨_, h⟩ | ⟨_, h⟩
    · rcases h with ⟨_, hp2, _⟩ | ⟨_, _, ha, hc, hc1, h6, h7, h8⟩ | ⟨hw2, _⟩
      · rw [hp] at hp2; exact absurd hp2 (by decide)
      · rw [aiPlan_eq _ (by omega)] at e5
        refine Or.inl ⟨e3, e2, ?_, ?_, ?_, ?_, ?_⟩
        all_goals omega
      · rw [hw] at hw2; exact absurd hw2 (by decide)
    · rcases h with ⟨_, hp2, _⟩ | ⟨_, _, ha, hc, hc1, h6, h7, h8⟩ | ⟨hw2, _⟩
      · rw [hp] at hp2; exact absurd hp2 (by decide)
      · rw [aiPlan_eq _ (by omega)] at e5
        refine Or.inl ⟨e3, e2, ?_, ?_, ?_, ?_, ?_⟩
        all_goals omega
      · rw [hw] at hw2; exact absurd hw2 (by decide)

theorem aiTurn_mono_le {fuel fuel2 : Nat} {s r : State}
    (h : aiTurn fuel s = some r) (hle : fuel ≤ fuel2) : aiTurn fuel2 s = some r := by
  induction hle with
  | refl => exact h
  | step _ ih => exact aiTurn_mono _ s r ih

/-- The AI's loop from a state in which the AI may still take `c + 1` tokens: it
dispatches exactly `c + 1` takes, and then either the AI has won (the pool was
`c + 1`) or the human holds the turn. -/
theorem aiTurn_plays_out (c : Nat) : ∀ a : State, a.winner = JSVal.undefined →
    a.playerIsHuman = false → a.canTake = (c : Int) + 1 →
    ∃ r : State, aiTurn (c + 2) a = some r ∧ aiTurn (c + 1) a = none ∧
      r.tokensLeft = a.tokensLeft - ((c : Int) + 1) ∧
      (a.tokensLeft = (c : Int) + 1 → r.winner = JSVal.bool false) ∧
      (a.tokensLeft ≠ (c : Int) + 1 → r.winner = JSVal.undefined ∧ r.playerIsHuman = true ∧
        r.canTake = min 3 (a.tokensLeft - ((c : Int) + 1)) ∧ r.topMove = some r.canTake) := by
  induction c with
  | zero =>
    intro a hw hp hc
    have hc1 : a.canTake = 1 := by simpa using hc
    refine ⟨reducer a (takeAction a), ?_, ?_, ?_, ?_, ?_⟩
    · by_cases ht : a.tokensLeft = 1
      · obtain ⟨_, _, _, e4⟩ := take_win_fields a hw hc1 ht
        simp [aiTurn, hw, hp, e4]
      · obtain ⟨_, e2, _, _, _⟩ := take_pass_fields a hw hc1 ht
        simp [aiTurn, hw, hp, e2]
    · simp [aiTurn, hw, hp]
    · rw [take_tokensLeft a hw]; simp
    · intro ht
      have ht1 : a.tokensLeft = 1 := by simpa using ht
      rw [(take_win_fields a hw hc1 ht1).2.2.2, hp]
    · intro ht
      have ht1 : a.tokensLeft ≠ 1 := by simpa using ht
      obtain ⟨_, e2, e3, e4, e5⟩ := take_pass_fields a hw hc1 ht1
      refine ⟨e3, by rw [e2, hp]; rfl, ?_, e4⟩
      rw [e5, hp]
      simp
  | succ c ih =>
    intro a hw hp hc
    have hc1 : a.canTake ≠ 1 := by omega
    obtain ⟨e1, e2, e3, _, e5⟩ := take_continue_fields a hw hc1
    obtain ⟨r, h1, h2, h3, h4, h5⟩ := ih (reducer a (takeAction a)) e5 (by rw [e3, hp])
      (by rw [e2, hc]; push_cast; omega)
    refine ⟨r, ?_, ?_, ?_, ?_, ?_⟩
    · rw [aiTurn, if_pos ⟨hp, hw⟩]; exact h1
    · rw [aiTurn, if_pos ⟨hp, hw⟩]; exact h2
    · rw [h3, e1]; push_cast; omega
    · intro ht
      exact h4 (by rw [e1, ht]; push_cast; omega)
    · intro ht
      obtain ⟨g1, g2, g3, g4⟩ := h5 (by rw [e1]; omega)
      refine ⟨g1, g2, ?_, g4⟩
      rw [g3, e1]
      push_cast
      congr 1
      omega

/-- From a state in which the AI has just been given the turn with `n` tokens left,
`n` between 1 and 12 and not a multiple of 4, the AI takes the pool down to the
multiple of 4 below. -/
theorem aiLeaves_of_assigned (n : Int) (a : State) (hw : a.winner = JSVal.undefined)
    (hp : a.playerIsHuman = false) (ht : a.tokensLeft = n) (hc : a.canTake = n % 4)
    (h1 : 1 ≤ n) (h12 : n ≤ 12) (h4 : n % 4 ≠ 0) : AiLeavesMultipleOfFour n a := by
  obtain ⟨c, hcn⟩ : ∃ c : Nat, n % 4 = (c : Int) + 1 := ⟨(n % 4 - 1).toNat, by omega⟩
  obtain ⟨r, g1, g2, g3, g4, g5⟩ := aiTurn_plays_out c a hw hp (by rw [hc, hcn])
  have hfuel : (n % 4).toNat = c + 1 := by omega
  refine ⟨r, ?_, ?_, ?_, ?_, ?_⟩
  · intro fuel hlt
    exact aiTurn_mono_le g1 (by omega)
  · rw [hfuel]; exact g2
  · rw [g3, ht, hcn]
  · rw [g3, ht]; omega
  · by_cases hn : n = (c : Int) + 1
    · left
      exact ⟨by rw [g3, ht]; omega, g4 (by rw [ht, hn])⟩
    · right
      obtain ⟨k1, k2, k3, k4⟩ := g5 (by rw [ht]; exact hn)
      have hk : r.canTake = 3 := by rw [k3, ht]; omega
      exact ⟨k1, k2, hk, by rw [k4, hk]⟩

theorem digitChar_ne_percent : ∀ m : Nat, m < 10 → Nat.digitChar m ≠ '%' := by
  decide

theorem toDigitsCore_no_percent (fuel : Nat) : ∀ (n : Nat) (ds : List Char),
    (∀ ch ∈ ds, ch ≠ '%') → ∀ ch ∈ Nat.toDigitsCore 10 fuel n ds, ch ≠ '%' := by
  induction fuel with
  | zero => intro n ds h; simpa [Nat.toDigitsCore] using h
  | succ f ih =>
    intro n ds h
    have hd : ∀ ch ∈ Nat.digitChar (n % 10) :: ds, ch ≠ '%' := by
      intro ch hch
      rcases List.mem_cons.mp hch with e | e
      · rw [e]; exact digitChar_ne_percent _ (Nat.mod_lt _ (by decide))
      · exact h ch e
    rw [Nat.toDigitsCore]
    split
    · exact hd
    · exact ih _ _ hd

theorem natRepr_no_percent (n : Nat) : ∀ ch ∈ (Nat.repr n).data, ch ≠ '%' := by
  have := toDigitsCore_no_percent (n + 1) n [] (by simp)
  simpa [Nat.repr, Nat.toDigits, List.asString] using this

theorem intToString_no_percent (c : Int) : ∀ ch ∈ (toString c).data, ch ≠ '%' := by
  cases c with
  | ofNat m => exact natRepr_no_percent m
  | negSucc m =>
    intro ch hch
    have hch2 : ch ∈ "-".data ++ (Nat.repr (Nat.succ m)).data := by
      simpa [toString, String.data_append] using hch
    rcases List.mem_append.mp hch2 with e | e
    · have : ch = '-' := by simpa using e
      rw [this]; decide
    · exact natRepr_no_percent _ ch e

theorem replaceFirst_skip (xs rest option : List Char) (h : ∀ ch ∈ xs, ch ≠ '%') :
    replaceFirst (xs ++ '%' :: 's' :: rest) option = xs ++ (option ++ rest) := by
  induction xs with
  | nil => simp [replaceFirst]
  | cons x xs ih =>
    have hx : x ≠ '%' := h x (by simp)
    have ih2 := ih (fun ch hch => h ch (by simp [hch]))
    rw [List.cons_append, replaceFirst]
    · rw [ih2]; rfl
    · intro rest2 hcontra _
      exact hx hcontra


theorem replace_canTake (a b c d e : String)
    (ha : ∀ ch ∈ a.data, ch ≠ '%') (hb : ∀ ch ∈ b.data, ch ≠ '%')
    (hc : ∀ ch ∈ c.data, ch ≠ '%') (hd : ∀ ch ∈ d.data, ch ≠ '%') :
    replace STRINGS.canTake [a, b, c, d, e] =
      "You can take" ++ a ++ " " ++ b ++ c ++ " " ++ d ++ e := by
  have hP : ∀ ch ∈ "You can take".data, ch ≠ '%' := by decide
  have s1 : replaceFirst STRINGS.canTake.data a.data =
      ("You can take".data ++ a.data ++ [' ']) ++ '%' :: 's' :: ['%', 's', ' ', '%', 's', '%', 's'] := by
    have h := replaceFirst_skip "You can take".data [' ', '%', 's', '%', 's', ' ', '%', 's', '%', 's']
      a.data hP
    simpa [List.append_assoc] using h
  have s2 : replaceFirst (("You can take".data ++ a.data ++ [' ']) ++
        '%' :: 's' :: ['%', 's', ' ', '%', 's', '%', 's']) b.data =
      ("You can take".data ++ a.data ++ [' '] ++ b.data) ++ '%' :: 's' :: [' ', '%', 's', '%', 's'] := by
    have h := replaceFirst_skip ("You can take".data ++ a.data ++ [' '])
      ['%', 's', ' ', '%', 's', '%', 's'] b.data (by
        intro ch hch
        simp only [List.mem_append, List.mem_singleton] at hch
        rcases hch with (h1 | h1) | h1
        · exact hP ch h1
        · exact ha ch h1
        · rw [h1]; decide)
    simpa [List.append_assoc] using h
  have s3 : replaceFirst (("You can take".data ++ a.data ++ [' '] ++ b.data) ++
        '%' :: 's' :: [' ', '%', 's', '%', 's']) c.data =
      ("You can take".data ++ a.data ++ [' '] ++ b.data ++ c.data ++ [' ']) ++
        '%' :: 's' :: ['%', 's'] := by
    have h := replaceFirst_skip ("You can take".data ++ a.data ++ [' '] ++ b.data)
      [' ', '%', 's', '%', 's'] c.data (by
        intro ch hch
        simp only [List.mem_append, List.mem_singleton] at hch
        rcases hch with ((h1 | h1) | h1) | h1
        · exact hP ch h1
        · exact ha ch h1
        · rw [h1]; decide
        · exact hb ch h1)
    simpa [List.append_assoc] using h
  have s4 : replaceFirst (("You can take".data ++ a.data ++ [' '] ++ b.data ++ c.data ++ [' ']) ++
        '%' :: 's' :: ['%', 's']) d.data =
      ("You can take".data ++ a.data ++ [' '] ++ b.data ++ c.data ++ [' '] ++ d.data) ++
        '%' :: 's' :: [] := by
    have h := replaceFirst_skip
      ("You can take".data ++ a.data ++ [' '] ++ b.data ++ c.data ++ [' '])
      ['%', 's'] d.data (by
        intro ch hch
        simp only [List.mem_append, List.mem_singleton] at hch
        rcases hch with ((((h1 | h1) | h1) | h1) | h1) | h1
        · exact hP ch h1
        · exact ha ch h1
        · rw [h1]; decide
        · exact hb ch h1
        · exact hc ch h1
        · rw [h1]; decide)
    simpa [List.append_assoc] using h
  have s5 : replaceFirst (("You can take".data ++ a.data ++ [' '] ++ b.data ++ c.data ++ [' '] ++
        d.data) ++ '%' :: 's' :: []) e.data =
      "You can take".data ++ a.data ++ [' '] ++ b.data ++ c.data ++ [' '] ++ d.data ++ e.data := by
    have h := replaceFirst_skip
      ("You can take".data ++ a.data ++ [' '] ++ b.data ++ c.data ++ [' '] ++ d.data)
      [] e.data (by
        intro ch hch
        simp only [List.mem_append, List.mem_singleton] at hch
        rcases hch with (((((h1 | h1) | h1) | h1) | h1) | h1) | h1
        · exact hP ch h1
        · exact ha ch h1
        · rw [h1]; decide
        · exact hb ch h1
        · exact hc ch h1
        · rw [h1]; decide
        · exact hd ch h1)
    simpa [List.append_assoc] using h
  apply String.ext
  simp only [replace, List.foldl, s1, s2, s3, s4, s5, String.data_append]

theorem playCounting_fst (ms : List Move) : ∀ (s : State) (k : Nat),
    (playCounting s k ms).1 = play s ms := by
  induction ms with
  | nil => intro s k; rfl
  | cons m ms ih => intro s k; rw [playCounting, play_cons]; exact ih _ _

theorem counted_step (s : State) (k : Nat) (m : Move) (h : Counted s k) :
    Counted (reducer s (m.action s)) (turnCount s k m) := by
  obtain ⟨hb, ht⟩ := h
  have hb2 := bounded_step s m hb
  refine ⟨hb2, ?_⟩
  cases m with
  | newGame =>
    intro _ hp
    have hp2 : (true : Bool) = false := hp
    exact absurd hp2 (by decide)
  | setPlayerToHuman b =>
    by_cases hc : s.winner = JSVal.undefined ∧ s.playerIsHuman ≠ b
    · obtain ⟨_, e2, _, e4, _⟩ := set_fields s b hc.1 hc.2
      intro _ hp
      refine ⟨_, e4, ?_, hb2.2.2.2.1⟩
      simp [turnCount, hc, Move.action]
    · have hn : s.winner ≠ JSVal.undefined ∨ s.playerIsHuman = b := by
        by_cases hw : s.winner = JSVal.undefined
        · right
          by_contra hne
          exact hc ⟨hw, hne⟩
        · exact Or.inl hw
      have e : reducer s ((Move.setPlayerToHuman b).action s) = s := set_noop s b hn
      rw [e]
      simpa [turnCount, hc] using ht
  | take =>
    by_cases hw : s.winner = JSVal.undefined
    · have hc0 := hb.2.2.2.2.1 hw
      by_cases hc1 : s.canTake = 1
      · by_cases ht1 : s.tokensLeft = 1
        · obtain ⟨_, _, _, e4⟩ := take_win_fields s hw hc1 ht1
          intro hw2 _
          rw [Move.action, e4] at hw2
          cases hw2
        · obtain ⟨_, e2, _, e4, _⟩ := take_pass_fields s hw hc1 ht1
          intro _ hp
          refine ⟨_, e4, ?_, hb2.2.2.2.1⟩
          have hne : ¬ ((reducer s (takeAction s)).playerIsHuman = s.playerIsHuman) := by
            rw [e2]; cases s.playerIsHuman <;> decide
          simp [turnCount, hw, hne, Move.action]
      · obtain ⟨_, e2, e3, e4, _⟩ := take_continue_fields s hw hc1
        intro _ hp
        rw [Move.action, e3] at hp
        obtain ⟨top, g1, g2, g3⟩ := ht hw hp
        refine ⟨top, by rw [Move.action, e4]; exact g1, ?_, g3⟩
        rw [Move.action, e2]
        simp only [turnCount, hw, e3, ne_eq, not_true_eq_false, if_false, if_true]
        push_cast
        omega
    · have e : reducer s (Move.take.action s) = s := take_terminal s hw
      rw [e]
      intro hw2
      exact absurd hw2 hw

theorem counted_playCounting (ms : List Move) : ∀ (s : State) (k : Nat), Counted s k →
    Counted (playCounting s k ms).1 (playCounting s k ms).2 := by
  induction ms with
  | nil => intro s k h; exact h
  | cons m ms ih => intro s k h; exact ih _ _ (counted_step s k m h)

theorem counted_initial : Counted initialState 0 :=
  ⟨bounded_initial, fun _ hp => absurd hp (by decide)⟩

theorem setPlayerToHumanCalls_last (s : State) (b a : Bool) (x : State)
    (hx : x ∈ setPlayerToHumanCalls s b a) :
    (a = true ∧ x = s) ∨ x.topMove = some x.canTake := by
  by_cases h1 : b = s.playerIsHuman
  · simp [setPlayerToHumanCalls, h1] at hx
  · have hnew : ({ (setPlayerToHuman s b a).value s with feedback := s.feedback } : State).topMove
        = some ({ (setPlayerToHuman s b a).value s with
            feedback := s.feedback } : State).canTake := by
      cases b <;> simp [setPlayerToHuman, h1, Returned.value]
    simp only [setPlayerToHumanCalls, h1, if_false] at hx
    rcases List.mem_append.mp hx with e | e
    · left
      cases a with
      | false => simp at e
      | true => exact ⟨rfl, by simpa using e⟩
    · right
      have e2 := List.mem_singleton.mp e
      rw [e2]
      exact hnew

theorem ordinal_call_in_range (s : State) (k : Nat) (h : Counted s k) (m : Move) (x : State)
    (hx : x ∈ getFeedbackCalls s (m.action s)) (hb : ReachesOrdinalBranch x) :
    ∃ top : Int, x.topMove = some top ∧ x.canTake ≤ top ∧ 0 ≤ top - x.canTake - 1 ∧
      top - x.canTake - 1 ≤ 2 ∧ top - x.canTake = (k : Int) + 1 := by
  obtain ⟨hp, hw, _, hne, h1⟩ := hb
  obtain ⟨⟨_, _, _, _, hc1, _⟩, hcount⟩ := h
  cases m with
  | newGame => simp [Move.action, getFeedbackCalls] at hx
  | setPlayerToHuman b =>
    by_cases hwin : s.winner = JSVal.undefined
    · simp only [Move.action, getFeedbackCalls, hwin, ne_eq, not_true_eq_false, if_false] at hx
      rcases setPlayerToHumanCalls_last s b false x hx with ⟨hf, _⟩ | e
      · exact absurd hf (by decide)
      · exact absurd e hne
    · simp [Move.action, getFeedbackCalls, hwin] at hx
  | take =>
    by_cases hwin : s.winner = JSVal.undefined
    · have hc := hc1 hwin
      simp only [Move.action, takeAction, getFeedbackCalls, hwin, ne_eq, not_true_eq_false,
        if_false, takeTokenCalls] at hx
      have key :
          x = { s with
            tokensLeft := s.tokensLeft - 1, canTake := s.canTake - 1,
            winner := JSVal.undefined } →
          ∃ top : Int, x.topMove = some top ∧ x.canTake ≤ top ∧ 0 ≤ top - x.canTake - 1 ∧
            top - x.canTake - 1 ≤ 2 ∧ top - x.canTake = (k : Int) + 1 := by
        intro e
        have hps : s.playerIsHuman = false := by rw [e] at hp; exact hp
        obtain ⟨top, g1, g2, g3⟩ := hcount hwin hps
        have hx1 : x.topMove = some top := by rw [e]; exact g1
        have hx2 : x.canTake = s.canTake - 1 := by rw [e]
        refine ⟨top, hx1, ?_, ?_, ?_, ?_⟩ <;> omega
      split_ifs at hx with h2 h3
      · have e := List.mem_singleton.mp hx
        rw [e] at hp hw
        simp only at hp hw
        rw [hp] at hw
        exact absurd rfl hw
      · rcases setPlayerToHumanCalls_last _ _ _ x hx with ⟨_, e⟩ | e
        · exact key e
        · exact absurd e hne
      · exact key (List.mem_singleton.mp hx)
    · simp [Move.action, takeAction, getFeedbackCalls, hwin] at hx

theorem takeToken_tokensLeft (s : State) (t c : Int) :
    (takeToken s t c).tokensLeft = t - 1 := by
  unfold takeToken
  by_cases hc : c - 1 = 0
  · by_cases ht : t - 1 = 0
    · simp [hc, ht, takeTokenFinish]
    · cases hp : s.playerIsHuman <;>
        simp [hc, ht, hp, setPlayerToHuman, Returned.value]
  · simp [hc, takeTokenFinish]

theorem takeToken_congr (s1 s2 : State) (t c : Int)
    (hp : s1.playerIsHuman = s2.playerIsHuman) (hf : s1.feedback = s2.feedback)
    (htop : s1.topMove = s2.topMove) (hw : s1.winner = s2.winner) :
    takeToken s1 t c = takeToken s2 t c := by
  have h : ({ s1 with tokensLeft := t - 1, canTake := c - 1 } : State)
      = { s2 with tokensLeft := t - 1, canTake := c - 1 } := by
    cases s1
    cases s2
    simp_all
  simp only [takeToken, h, hp, hf, htop, hw]

/-! ## Single transitions -/

/-- C1. Taking the last token wins: from an in-progress state with one token left
and one token still takeable, `TAKE_TOKEN` (payload read from the state) leaves no
token, `canTake = 0`, the same side, that side as `winner`, and the matching
end-of-game message. -/
theorem last_token_wins (s : State) (hw : s.winner = JSVal.undefined)
    (ht : s.tokensLeft = 1) (hc : s.canTake = 1) :
    (reducer s (takeAction s)).tokensLeft = 0 ∧
    (reducer s (takeAction s)).canTake = 0 ∧
    (reducer s (takeAction s)).playerIsHuman = s.playerIsHuman ∧
    (reducer s (takeAction s)).winner = JSVal.bool s.playerIsHuman ∧
    (reducer s (takeAction s)).feedback =
      (if s.playerIsHuman then "You took the last token. You win!"
        else "The AI took the last token. The AI wins.") := by
  cases hp : s.playerIsHuman <;>
    simp [reducer, reducerReturned, takeAction, takeToken, takeTokenFinish,
      Returned.value, getFeedback, JSVal.truthy, STRINGS.youWin, STRINGS.aiWins, hw, ht, hc, hp]

theorem last_token_wins_witness :
    (reducer { initialState with tokensLeft := 1, canTake := 1 }
      (takeAction { initialState with tokensLeft := 1, canTake := 1 })).winner
      = JSVal.bool true :=
  (last_token_wins { initialState with tokensLeft := 1, canTake := 1 } rfl rfl rfl).2.2.2.1

/-- C2. Side assignment: in an in-progress state, `SET_PLAYER_TO_HUMAN b` with `b`
different from the current side sets `playerIsHuman` to `b`, keeps `tokensLeft` and
`winner`, and sets `canTake` and `topMove` to one common value: `min(3, tokensLeft)`
for the human, and the remainder `tokensLeft % 4` (or `1` when that is `0`) for the
AI. The remainder is JavaScript's; for a pool that is not negative it is the usual
one. -/
theorem side_assignment (s : State) (b : Bool) (hw : s.winner = JSVal.undefined)
    (hb : b ≠ s.playerIsHuman) :
    (reducer s (Action.SET_PLAYER_TO_HUMAN b)).playerIsHuman = b ∧
    (reducer s (Action.SET_PLAYER_TO_HUMAN b)).tokensLeft = s.tokensLeft ∧
    (reducer s (Action.SET_PLAYER_TO_HUMAN b)).winner = s.winner ∧
    (reducer s (Action.SET_PLAYER_TO_HUMAN b)).topMove =
      some (reducer s (Action.SET_PLAYER_TO_HUMAN b)).canTake ∧
    (reducer s (Action.SET_PLAYER_TO_HUMAN b)).canTake =
      (if b then min 3 s.tokensLeft
        else if Int.tmod s.tokensLeft 4 = 0 then 1 else Int.tmod s.tokensLeft 4) ∧
    (0 ≤ s.tokensLeft → b = false →
      (reducer s (Action.SET_PLAYER_TO_HUMAN b)).canTake =
        (if s.tokensLeft % 4 = 0 then 1 else s.tokensLeft % 4)) := by
  have key : (reducer s (Action.SET_PLAYER_TO_HUMAN b)).canTake =
      (if b then min 3 s.tokensLeft
        else if Int.tmod s.tokensLeft 4 = 0 then 1 else Int.tmod s.tokensLeft 4) := by
    cases b <;>
      simp [reducer, reducerReturned, setPlayerToHuman, Returned.value, MAX_TAKEN, hw, hb]
  refine ⟨?_, ?_, ?_, ?_, key, ?_⟩
  · simp [reducer, reducerReturned, setPlayerToHuman, Returned.value, hw, hb]
  · simp [reducer, reducerReturned, setPlayerToHuman, Returned.value, hw, hb]
  · simp [reducer, reducerReturned, setPlayerToHuman, Returned.value, hw, hb]
  · cases b <;>
      simp [reducer, reducerReturned, setPlayerToHuman, Returned.value, MAX_TAKEN, hw, hb]
  · intro h0 hfalse
    rw [key, hfalse, tmod_four_of_nonneg _ h0]
    simp

theorem side_assignment_witness :
    (reducer initialState (Action.SET_PLAYER_TO_HUMAN false)).canTake =
      (if Int.tmod initialState.tokensLeft 4 = 0 then 1
        else Int.tmod initialState.tokensLeft 4) :=
  (side_assignment initialState false rfl (by decide)).2.2.2.2.1

/-- C3. Automatic pass: from an in-progress state with `canTake = 1` and more than
one token left, `TAKE_TOKEN` (payload read from the state) removes one token, hands
the turn to the other side, leaves `winner` unset, and sets `canTake` and `topMove`
for the new side from the new pool: `min(3, n - 1)` for the human, `(n - 1) mod 4`
(or `1` when that is `0`) for the AI. In particular the AI's state with 5 tokens
left becomes the human's state with 4 tokens left and `canTake = topMove = 3`. -/
theorem automatic_pass (s : State) (hw : s.winner = JSVal.undefined)
    (hc : s.canTake = 1) (hn : 1 < s.tokensLeft) :
    ((reducer s (takeAction s)).tokensLeft = s.tokensLeft - 1 ∧
     (reducer s (takeAction s)).playerIsHuman = (!s.playerIsHuman) ∧
     (reducer s (takeAction s)).winner = JSVal.undefined ∧
     (reducer s (takeAction s)).topMove = some (reducer s (takeAction s)).canTake ∧
     (reducer s (takeAction s)).canTake =
       (if s.playerIsHuman then
          (if (s.tokensLeft - 1) % 4 = 0 then 1 else (s.tokensLeft - 1) % 4)
        else min 3 (s.tokensLeft - 1))) ∧
    (∀ fb : String,
      (reducer { tokensLeft := 5, canTake := 1, topMove := some 1, playerIsHuman := false,
                 feedback := fb, winner := JSVal.undefined }
        (Action.TAKE_TOKEN 5 1)).tokensLeft = 4 ∧
      (reducer { tokensLeft := 5, canTake := 1, topMove := some 1, playerIsHuman := false,
                 feedback := fb, winner := JSVal.undefined }
        (Action.TAKE_TOKEN 5 1)).playerIsHuman = true ∧
      (reducer { tokensLeft := 5, canTake := 1, topMove := some 1, playerIsHuman := false,
                 feedback := fb, winner := JSVal.undefined }
        (Action.TAKE_TOKEN 5 1)).canTake = 3 ∧
      (reducer { tokensLeft := 5, canTake := 1, topMove := some 1, playerIsHuman := false,
                 feedback := fb, winner := JSVal.undefined }
        (Action.TAKE_TOKEN 5 1)).topMove = some 3) := by
  have hne : s.tokensLeft - 1 ≠ 0 := by omega
  have hmod : Int.tmod (s.tokensLeft - 1) 4 = (s.tokensLeft - 1) % 4 :=
    tmod_four_of_nonneg _ (by omega)
  refine ⟨?_, ?_⟩
  · cases hp : s.playerIsHuman <;>
      simp [reducer, reducerReturned, takeAction, takeToken, setPlayerToHuman,
        Returned.value, MAX_TAKEN, hw, hc, hp, hne, hmod]
  · intro fb
    simp [reducer, reducerReturned, takeToken, setPlayerToHuman, Returned.value, MAX_TAKEN]

theorem automatic_pass_witness :
    (reducer { initialState with tokensLeft := 5, canTake := 1, playerIsHuman := false }
      (takeAction { initialState with tokensLeft := 5, canTake := 1, playerIsHuman := false })
      ).playerIsHuman = true :=
  (automatic_pass { initialState with tokensLeft := 5, canTake := 1, playerIsHuman := false }
    rfl rfl (by decide)).1.2.1

/-- C6. Terminal absorption: when `winner` is defined (whatever its value and
whatever the other fields), every action other than `NEW_GAME` makes the reducer
return the very state object it was given. -/
theorem terminal_absorption (s : State) (a : Action) (hw : s.winner ≠ JSVal.undefined)
    (ha : a ≠ Action.NEW_GAME) :
    reducerReturned s a = Returned.input ∧ reducer s a = s := by
  have h : reducerReturned s a = Returned.input := by
    cases a <;> simp_all [reducerReturned]
  exact ⟨h, by simp [reducer, h, Returned.value]⟩

theorem terminal_absorption_witness :
    reducer { initialState with winner := JSVal.str "game over" } (Action.TAKE_TOKEN 5 1)
      = { initialState with winner := JSVal.str "game over" } :=
  (terminal_absorption { initialState with winner := JSVal.str "game over" }
    (Action.TAKE_TOKEN 5 1) (by decide) (by decide)).2

/-- C7. Side assignment is idempotent: if the requested side already holds the
turn, `SET_PLAYER_TO_HUMAN` returns the very state object it was given; and for
every state, dispatching the same `SET_PLAYER_TO_HUMAN` a second time returns the
object the first dispatch returned. -/
theorem side_assignment_idempotent (s : State) (b : Bool) :
    (s.playerIsHuman = b →
      reducerReturned s (Action.SET_PLAYER_TO_HUMAN b) = Returned.input ∧
      reducer s (Action.SET_PLAYER_TO_HUMAN b) = s) ∧
    reducerReturned (reducer s (Action.SET_PLAYER_TO_HUMAN b)) (Action.SET_PLAYER_TO_HUMAN b)
      = Returned.input ∧
    reducer (reducer s (Action.SET_PLAYER_TO_HUMAN b)) (Action.SET_PLAYER_TO_HUMAN b)
      = reducer s (Action.SET_PLAYER_TO_HUMAN b) := by
  have h1 : ∀ t : State, t.playerIsHuman = b →
      reducerReturned t (Action.SET_PLAYER_TO_HUMAN b) = Returned.input := by
    intro t ht
    by_cases hw : t.winner = JSVal.undefined <;>
      simp [reducerReturned, setPlayerToHuman, hw, ht]
  have h2 : reducerReturned (reducer s (Action.SET_PLAYER_TO_HUMAN b))
      (Action.SET_PLAYER_TO_HUMAN b) = Returned.input := by
    by_cases hw : s.winner = JSVal.undefined
    · by_cases hp : s.playerIsHuman = b
      · have e : reducer s (Action.SET_PLAYER_TO_HUMAN b) = s := by
          simp [reducer, h1 s hp, Returned.value]
        rw [e]
        exact h1 s hp
      · apply h1
        have hp2 : ¬ (b = s.playerIsHuman) := fun h => hp h.symm
        simp [reducer, reducerReturned, setPlayerToHuman, Returned.value, hw, hp2]
    · have e : reducer s (Action.SET_PLAYER_TO_HUMAN b) = s := by
        simp [reducer, reducerReturned, Returned.value, hw]
      rw [e]
      simp [reducerReturned, hw]
  refine ⟨fun hp => ⟨h1 s hp, by simp [reducer, h1 s hp, Returned.value]⟩, h2, ?_⟩
  show (reducerReturned (reducer s (Action.SET_PLAYER_TO_HUMAN b))
      (Action.SET_PLAYER_TO_HUMAN b)).value _ = _
  rw [h2]
  rfl

theorem side_assignment_idempotent_witness :
    reducerReturned initialState (Action.SET_PLAYER_TO_HUMAN true) = Returned.input ∧
    reducer initialState (Action.SET_PLAYER_TO_HUMAN true) = initialState :=
  (side_assignment_idempotent initialState true).1 rfl

/-! ## Invariants of reachable states -/

/-- C8. Bounds invariant: every state reachable from `initialState` by `NEW_GAME`,
`SET_PLAYER_TO_HUMAN` and `TAKE_TOKEN` (payload read from the current state)
satisfies `0 ≤ canTake ≤ tokensLeft ≤ 12` and `canTake ≤ 3`. -/
theorem reachable_bounds (s : State) (h : Reachable s) :
    0 ≤ s.canTake ∧ s.canTake ≤ s.tokensLeft ∧ s.tokensLeft ≤ 12 ∧ s.canTake ≤ 3 := by
  obtain ⟨h0, h1, h2, h3, _, _⟩ := bounded_of_reachable s h
  exact ⟨h0, h1, h2, h3⟩

theorem reachable_bounds_witness :
    0 ≤ (play initialState [Move.take, Move.setPlayerToHuman false, Move.take]).canTake ∧
    (play initialState [Move.take, Move.setPlayerToHuman false, Move.take]).canTake
      ≤ (play initialState [Move.take, Move.setPlayerToHuman false, Move.take]).tokensLeft ∧
    (play initialState [Move.take, Move.setPlayerToHuman false, Move.take]).tokensLeft ≤ 12 ∧
    (play initialState [Move.take, Move.setPlayerToHuman false, Move.take]).canTake ≤ 3 :=
  reachable_bounds _ ⟨[Move.take, Move.setPlayerToHuman false, Move.take], rfl⟩

/-- C9. Winner invariant: in every state reachable from `initialState` by
`NEW_GAME`, `SET_PLAYER_TO_HUMAN` and `TAKE_TOKEN` (payload read from the current
state), `winner` is defined exactly when no token is left. -/
theorem reachable_winner_iff (s : State) (h : Reachable s) :
    s.winner ≠ JSVal.undefined ↔ s.tokensLeft = 0 := by
  obtain ⟨_, h1, _, _, h4, h5⟩ := bounded_of_reachable s h
  constructor
  · exact h5
  · intro ht hw
    have := h4 hw
    omega

theorem reachable_winner_iff_witness :
    (play initialState [Move.take, Move.setPlayerToHuman false, Move.take]).winner
        ≠ JSVal.undefined ↔
      (play initialState [Move.take, Move.setPlayerToHuman false, Move.take]).tokensLeft = 0 :=
  reachable_winner_iff _ ⟨[Move.take, Move.setPlayerToHuman false, Move.take], rfl⟩

/-- C10. Pool monotonicity: in an in-progress state `TAKE_TOKEN` (payload read from
the state) lowers `tokensLeft` by exactly one, whichever branch is taken;
`SET_PLAYER_TO_HUMAN` never changes `tokensLeft`; and along any sequence of moves
without `NEW_GAME` the pool never grows. -/
theorem pool_monotone (s : State) (b : Bool) (ms : List Move) :
    (s.winner = JSVal.undefined →
      (reducer s (takeAction s)).tokensLeft = s.tokensLeft - 1) ∧
    (reducer s (Action.SET_PLAYER_TO_HUMAN b)).tokensLeft = s.tokensLeft ∧
    (Move.newGame ∉ ms → (play s ms).tokensLeft ≤ s.tokensLeft) := by
  have htake : ∀ t : State, t.winner = JSVal.undefined →
      (reducer t (takeAction t)).tokensLeft = t.tokensLeft - 1 := by
    intro t hw
    by_cases hc1 : t.canTake = 1
    · by_cases ht : t.tokensLeft = 1
      · rw [(take_win_fields t hw hc1 ht).1, ht]; rfl
      · exact (take_pass_fields t hw hc1 ht).1
    · exact (take_continue_fields t hw hc1).1
  have hset : ∀ (t : State) (c : Bool),
      (reducer t (Action.SET_PLAYER_TO_HUMAN c)).tokensLeft = t.tokensLeft := by
    intro t c
    by_cases h : t.winner ≠ JSVal.undefined ∨ t.playerIsHuman = c
    · rw [set_noop t c h]
    · push_neg at h
      exact (set_fields t c h.1 h.2).1
  refine ⟨htake s, hset s b, ?_⟩
  induction ms generalizing s with
  | nil => intro _; exact le_refl _
  | cons m ms ih =>
    intro hnot
    have hm : m ≠ Move.newGame := fun e => hnot (by simp [e])
    have hms : Move.newGame ∉ ms := fun e => hnot (by simp [e])
    have hstep : (reducer s (m.action s)).tokensLeft ≤ s.tokensLeft := by
      cases m with
      | newGame => exact absurd rfl hm
      | setPlayerToHuman c => rw [Move.action, hset]
      | take =>
        by_cases hw : s.winner = JSVal.undefined
        · rw [Move.action, htake s hw]; omega
        · rw [Move.action, take_terminal s hw]
    rw [play_cons]
    exact le_trans (ih _ hms) hstep

theorem pool_monotone_witness :
    (reducer initialState (takeAction initialState)).tokensLeft = initialState.tokensLeft - 1 ∧
    (play initialState [Move.take, Move.setPlayerToHuman false, Move.take]).tokensLeft
      ≤ initialState.tokensLeft :=
  ⟨(pool_monotone initialState false [Move.take, Move.setPlayerToHuman false, Move.take]).1 rfl,
   (pool_monotone initialState false [Move.take, Move.setPlayerToHuman false, Move.take]).2.2
     (by decide)⟩

/-! ## Whole games -/

/-- C4. The AI always wins when the human moves first. Along every play from
`initialState` in which the human takes between one and `canTake` tokens on each of
its turns and then hands over, and the AI plays out its turns: `winner` is never
`true`; once defined it is `false`; every human turn begins with a positive
multiple of 4 tokens; a play has at most 15 actions; and a play that has no winner
yet is continued by the next `TAKE_TOKEN` on its own last state `s`: the pool
loses one token, when the human holds the turn it has taken fewer tokens than it
was allowed (so the take is a legal move of the play), and the state the reducer
returns is the next state of the play. So every such play ends, with
`winner === false`. -/
theorem ai_wins_when_human_first (n taken : Nat) (allowed : Int) (s : State)
    (h : HumanFirstPlay n taken allowed s) :
    s.winner ≠ JSVal.bool true ∧
    (s.winner ≠ JSVal.undefined → s.winner = JSVal.bool false) ∧
    (s.winner = JSVal.undefined → s.playerIsHuman = true → taken = 0 →
      0 < s.tokensLeft ∧ s.tokensLeft % 4 = 0) ∧
    n ≤ 15 ∧
    (s.winner = JSVal.undefined →
      (reducer s (takeAction s)).tokensLeft = s.tokensLeft - 1 ∧
      (s.playerIsHuman = true →
        (taken : Int) < allowed ∧
        HumanFirstPlay (n + 1) (taken + 1) allowed (reducer s (takeAction s))) ∧
      (s.playerIsHuman = false →
        HumanFirstPlay (n + 1) 0 (reducer s (takeAction s)).canTake
          (reducer s (takeAction s)))) := by
  have hinv := humanFirstInv_of_play h
  refine ⟨?_, ?_, ?_, ?_, ?_⟩
  · rcases hinv with ⟨hw, _⟩ | ⟨hw, _⟩ | ⟨hw, _⟩ <;> simp [hw]
  · rcases hinv with ⟨hw, _⟩ | ⟨hw, _⟩ | ⟨hw, _⟩ <;> simp [hw]
  · intro hw hp ht
    rcases hinv with ⟨_, _, _, _, _, h6, h7, _⟩ | ⟨_, hp2, _⟩ | ⟨hw2, _⟩
    · subst ht
      exact ⟨by omega, by omega⟩
    · rw [hp] at hp2; exact absurd hp2 (by decide)
    · rw [hw] at hw2; exact absurd hw2 (by decide)
  · rcases hinv with ⟨_, _, _, _, _, _, _, h8⟩ | ⟨_, _, _, _, _, _, h8⟩ | ⟨_, _, h8⟩ <;> omega
  · intro hw
    refine ⟨take_tokensLeft s hw, ?_, ?_⟩
    · intro hp
      rcases hinv with ⟨_, _, ha, hc, hc1, _⟩ | ⟨_, hp2, _⟩ | ⟨hw2, _⟩
      · have hlt : (taken : Int) < allowed := by omega
        exact ⟨hlt, HumanFirstPlay.humanTake h hw hp hlt⟩
      · rw [hp] at hp2; exact absurd hp2 (by decide)
      · rw [hw] at hw2; exact absurd hw2 (by decide)
    · intro hp
      exact HumanFirstPlay.aiTake h hw hp

theorem ai_wins_when_human_first_witness :
    (reducer initialState (takeAction initialState)).winner ≠ JSVal.bool true ∧
    1 ≤ 15 ∧
    ((1 : Nat) : Int) < initialState.canTake ∧
    HumanFirstPlay 2 2 initialState.canTake
      (reducer (reducer initialState (takeAction initialState))
        (takeAction (reducer initialState (takeAction initialState)))) :=
  ⟨(ai_wins_when_human_first 1 1 initialState.canTake
      (reducer initialState (takeAction initialState))
      (HumanFirstPlay.humanTake HumanFirstPlay.start rfl rfl (by decide))).1,
   (ai_wins_when_human_first 1 1 initialState.canTake
      (reducer initialState (takeAction initialState))
      (HumanFirstPlay.humanTake HumanFirstPlay.start rfl rfl (by decide))).2.2.2.1,
   ((ai_wins_when_human_first 1 1 initialState.canTake
      (reducer initialState (takeAction initialState))
      (HumanFirstPlay.humanTake HumanFirstPlay.start rfl rfl (by decide))).2.2.2.2
        (by decide)).2.1 (by decide)⟩

/-- C5. The AI loses to a perfect human when the AI moves first: from
`initialState`, after `SET_PLAYER_TO_HUMAN false`, with every AI turn played out by
`TAKE_TOKEN` and the human taking `tokensLeft mod 4` tokens (one when that is `0`)
on each of its turns, the game ends, and it ends with `winner === true`. -/
theorem perfect_human_wins (fuel : Nat) (h : 5 ≤ fuel) :
    ∃ s : State,
      perfectGame fuel (reducer initialState (Action.SET_PLAYER_TO_HUMAN false)) = some s ∧
      s.winner = JSVal.bool true ∧ s.tokensLeft = 0 := by
  obtain ⟨r, hr, hw, ht⟩ : ∃ r : State,
      perfectGame 5 (reducer initialState (Action.SET_PLAYER_TO_HUMAN false)) = some r ∧
      r.winner = JSVal.bool true ∧ r.tokensLeft = 0 := by
    cases hg : perfectGame 5 (reducer initialState (Action.SET_PLAYER_TO_HUMAN false)) with
    | none => exact absurd hg (by decide)
    | some r =>
      have e : (perfectGame 5 (reducer initialState (Action.SET_PLAYER_TO_HUMAN false))).map
          (fun s => (s.winner, s.tokensLeft)) = some (JSVal.bool true, 0) := by decide
      rw [hg] at e
      simp at e
      exact ⟨r, rfl, e.1, e.2⟩
  exact ⟨r, perfectGame_mono_le hr h, hw, ht⟩

theorem perfect_human_wins_witness :
    ∃ s : State,
      perfectGame 7 (reducer initialState (Action.SET_PLAYER_TO_HUMAN false)) = some s ∧
      s.winner = JSVal.bool true ∧ s.tokensLeft = 0 :=
  perfect_human_wins 7 (by decide)

/-! ## Restart, game rule and narration after a move -/

/-- C11. Restart: for every state, `NEW_GAME` returns the module constant
`initialState`, whose fields are `tokensLeft = 12`, `canTake = 3`,
`playerIsHuman = true`, the start message, and no `topMove` or `winner`. -/
theorem new_game_restarts (s : State) :
    reducerReturned s Action.NEW_GAME = Returned.initial ∧
    reducer s Action.NEW_GAME = initialState ∧
    initialState.tokensLeft = 12 ∧
    initialState.canTake = 3 ∧
    initialState.playerIsHuman = true ∧
    initialState.feedback = "Start the game. Take a token or let the AI play first." ∧
    initialState.topMove = none ∧
    initialState.winner = JSVal.undefined :=
  ⟨rfl, rfl, rfl, rfl, rfl, rfl, rfl, rfl⟩

/-- The reading of C13 fails: in the reachable state where the human is left with
one token to take, taking it brings `tokensLeft` to 0 and the winner is the human,
the side that made the move, not the other side. -/
theorem last_token_loses_counterexample :
    ¬ (∀ s : State, s.winner = JSVal.undefined →
        (reducer s (takeAction s)).tokensLeft = 0 →
        (reducer s (takeAction s)).winner = JSVal.bool (!s.playerIsHuman)) := by
  intro h
  have h1 := h (play initialState [Move.setPlayerToHuman false, Move.take, Move.take,
    Move.take, Move.take, Move.take, Move.take, Move.take, Move.take, Move.take, Move.take,
    Move.take]) (by decide) (by decide)
  exact absurd h1 (by decide)

/-- C13, amended. The player who takes the last token wins: for every in-progress
state that is reachable (or has `canTake = 1`) in which `TAKE_TOKEN` with the
state's payload brings `tokensLeft` to 0, the resulting winner is the side that
made that move. -/
theorem last_token_taker_wins (s : State) (hw : s.winner = JSVal.undefined)
    (ht : (reducer s (takeAction s)).tokensLeft = 0)
    (h : s.canTake = 1 ∨ Reachable s) :
    (reducer s (takeAction s)).winner = JSVal.bool s.playerIsHuman := by
  have ht1 : s.tokensLeft = 1 := by
    rw [take_tokensLeft s hw] at ht
    omega
  have hc1 : s.canTake = 1 := by
    rcases h with h | h
    · exact h
    · obtain ⟨_, h1, _, _, h4, _⟩ := bounded_of_reachable s h
      have := h4 hw
      omega
  exact (take_win_fields s hw hc1 ht1).2.2.2

theorem last_token_taker_wins_witness :
    (reducer { initialState with tokensLeft := 1, canTake := 1, playerIsHuman := false }
      (takeAction { initialState with tokensLeft := 1, canTake := 1, playerIsHuman := false })
      ).winner = JSVal.bool false :=
  last_token_taker_wins
    { initialState with tokensLeft := 1, canTake := 1, playerIsHuman := false }
    rfl (by decide) (Or.inl rfl)

/-- C14. Mid-turn move: from an in-progress state with `canTake ≥ 2` (whatever the
pool), `TAKE_TOKEN` with the state's payload lowers `tokensLeft` and `canTake` by
one, keeps `playerIsHuman` and `topMove`, leaves `winner` unset, and stores as
feedback the narration of the resulting state, with nothing prepended. -/
theorem mid_turn_move (s : State) (hw : s.winner = JSVal.undefined) (hc : 2 ≤ s.canTake) :
    (reducer s (takeAction s)).tokensLeft = s.tokensLeft - 1 ∧
    (reducer s (takeAction s)).canTake = s.canTake - 1 ∧
    (reducer s (takeAction s)).playerIsHuman = s.playerIsHuman ∧
    (reducer s (takeAction s)).topMove = s.topMove ∧
    (reducer s (takeAction s)).winner = JSVal.undefined ∧
    (reducer s (takeAction s)).feedback = getFeedback (reducer s (takeAction s)) := by
  have hc1 : s.canTake ≠ 1 := by omega
  obtain ⟨e1, e2, e3, e4, e5⟩ := take_continue_fields s hw hc1
  exact ⟨e1, e2, e3, e4, e5, take_continue_feedback s hw hc1⟩

theorem mid_turn_move_witness :
    (reducer initialState (takeAction initialState)).feedback =
      getFeedback (reducer initialState (takeAction initialState)) :=
  (mid_turn_move initialState rfl (by decide)).2.2.2.2.2

/-- C16. Feedback after a side change. Whenever the turn changes side the new
feedback is a prefix, a space, and the narration of the new state. For a requested
`SET_PLAYER_TO_HUMAN` the prefix is empty; when the AI's `TAKE_TOKEN` passes the
turn to the human the prefix is the narration of the AI's finished state (counts
already decremented); when the human's `TAKE_TOKEN` passes the turn to the AI the
prefix is empty. The two examples of the test-suite are included. -/
theorem feedback_after_side_change (s : State) (b : Bool) (hw : s.winner = JSVal.undefined) :
    (s.playerIsHuman ≠ b →
      (reducer s (Action.SET_PLAYER_TO_HUMAN b)).feedback =
        "" ++ " " ++ getFeedback (reducer s (Action.SET_PLAYER_TO_HUMAN b))) ∧
    (s.playerIsHuman = false → s.canTake = 1 → s.tokensLeft ≠ 1 →
      (reducer s (takeAction s)).feedback =
        getFeedback { s with tokensLeft := s.tokensLeft - 1, canTake := s.canTake - 1 }
          ++ " " ++ getFeedback (reducer s (takeAction s))) ∧
    (s.playerIsHuman = true → s.canTake = 1 → s.tokensLeft ≠ 1 →
      (reducer s (takeAction s)).feedback =
        "" ++ " " ++ getFeedback (reducer s (takeAction s))) ∧
    (reducer initialState (Action.SET_PLAYER_TO_HUMAN false)).feedback
      = " You let the AI play first." ∧
    (reducer { tokensLeft := 9, canTake := 1, topMove := some 2, playerIsHuman := false,
               feedback := "The AI took a first token.", winner := JSVal.undefined }
      (Action.TAKE_TOKEN 9 1)).feedback
      = "The AI took a second token. It's your turn now. You can take up to 3 tokens." := by
  refine ⟨fun hb => set_feedback s b hw hb, ?_, ?_, by decide, by decide⟩
  · intro hp hc ht
    have h := take_pass_feedback s hw hc ht
    rw [if_neg (by rw [hp]; decide)] at h
    exact h
  · intro hp hc ht
    have h := take_pass_feedback s hw hc ht
    rw [if_pos hp] at h
    exact h

theorem feedback_after_side_change_witness :
    (reducer initialState (Action.SET_PLAYER_TO_HUMAN false)).feedback =
      "" ++ " " ++ getFeedback (reducer initialState (Action.SET_PLAYER_TO_HUMAN false)) :=
  (feedback_after_side_change initialState false rfl).1 (by decide)

/-- The reading of C17 fails: after two takes from the initial state the human has
`canTake = 1` with 10 tokens left; the next take passes the turn to the AI and the
feedback is a space followed by the AI's narration, with no narration of the human
side (neither of its finished state nor of its state before the move) in front. -/
theorem human_pass_narration_counterexample :
    (play initialState [Move.take, Move.take]).playerIsHuman = true ∧
    (play initialState [Move.take, Move.take]).canTake = 1 ∧
    (play initialState [Move.take, Move.take, Move.take]).playerIsHuman = false ∧
    (play initialState [Move.take, Move.take, Move.take]).feedback
      = " Now it's the AI's turn to play." ∧
    (play initialState [Move.take, Move.take, Move.take]).feedback ≠
      getFeedback { play initialState [Move.take, Move.take] with
        tokensLeft := 9, canTake := 0 } ++ " " ++
      getFeedback (play initialState [Move.take, Move.take, Move.take]) ∧
    (play initialState [Move.take, Move.take, Move.take]).feedback ≠
      getFeedback (play initialState [Move.take, Move.take]) ++ " " ++
      getFeedback (play initialState [Move.take, Move.take, Move.take]) := by
  decide

/-- C17, amended. When a `TAKE_TOKEN` by the human exhausts `canTake` with tokens
remaining, so that the turn passes automatically to the AI, the resulting feedback
is a single space followed by the narration of the newly active AI side; nothing
about the human side is put in front. Unless 12 tokens remain, that feedback is
the space followed by the AI's turn message. -/
theorem human_pass_narration (s : State) (hw : s.winner = JSVal.undefined)
    (hp : s.playerIsHuman = true) (hc : s.canTake = 1) (ht : s.tokensLeft ≠ 1) :
    (reducer s (takeAction s)).playerIsHuman = false ∧
    (reducer s (takeAction s)).feedback = " " ++ getFeedback (reducer s (takeAction s)) ∧
    (s.tokensLeft ≠ 13 →
      (reducer s (takeAction s)).feedback = " Now it's the AI's turn to play.") := by
  obtain ⟨e1, e2, e3, e4, _⟩ := take_pass_fields s hw hc ht
  have hf : (reducer s (takeAction s)).feedback
      = " " ++ getFeedback (reducer s (takeAction s)) := by
    have h := take_pass_feedback s hw hc ht
    rw [hp] at h
    simpa using h
  refine ⟨by rw [e2, hp]; rfl, hf, ?_⟩
  intro h13
  have hne : ¬ ((reducer s (takeAction s)).tokensLeft = 12) := by rw [e1]; omega
  have hg : getFeedback (reducer s (takeAction s)) = "Now it's the AI's turn to play." := by
    rw [hp] at e2
    simp [getFeedback, e2, e3, e4, hne, STRINGS.aiTurn]
  rw [hf, hg]
  rfl

theorem human_pass_narration_witness :
    (reducer (play initialState [Move.take, Move.take])
      (takeAction (play initialState [Move.take, Move.take]))).feedback
      = " Now it's the AI's turn to play." :=
  (human_pass_narration (play initialState [Move.take, Move.take])
    (by decide) (by decide) (by decide) (by decide)).2.2 (by decide)

/-! ## The AI moves first -/

/-- The reading of C12 fails: in the play where the AI moves first and the human
takes 3 tokens on each of its three turns (all legal, `canTake` being 3 each
time), the game ends after 12 takes with the human as winner. -/
theorem agent_first_always_wins_counterexample :
    ¬ (∀ (n taken : Nat) (allowed : Int) (passed : Bool) (s : State),
        AiFirstPlay n taken allowed passed s → s.winner ≠ JSVal.undefined →
        s.winner = JSVal.bool false) := by
  intro h
  have p1 := AiFirstPlay.aiTake AiFirstPlay.start (by decide) (by decide)
  have p2 := AiFirstPlay.humanTake p1 (by decide) (by decide) (by decide)
  have p3 := AiFirstPlay.humanTake p2 (by decide) (by decide) (by decide)
  have p4 := AiFirstPlay.humanTake p3 (by decide) (by decide) (by decide)
  have p5 := AiFirstPlay.aiTake p4 (by decide) (by decide)
  have p6 := AiFirstPlay.humanTake p5 (by decide) (by decide) (by decide)
  have p7 := AiFirstPlay.humanTake p6 (by decide) (by decide) (by decide)
  have p8 := AiFirstPlay.humanTake p7 (by decide) (by decide) (by decide)
  have p9 := AiFirstPlay.aiTake p8 (by decide) (by decide)
  have p10 := AiFirstPlay.humanTake p9 (by decide) (by decide) (by decide)
  have p11 := AiFirstPlay.humanTake p10 (by decide) (by decide) (by decide)
  have p12 := AiFirstPlay.humanTake p11 (by decide) (by decide) (by decide)
  exact absurd (h _ _ _ _ _ p12 (by decide)) (by decide)

/-- C12, amended. When the AI moves first from the initial pool of 12 tokens and
plays out its turns in full, every play ends: it has at most 15 actions after the
opening one, and while there is no winner it is continued by the next
`TAKE_TOKEN` on its own last state `s` (the pool loses one token, when the human
holds the turn it has taken fewer tokens than it was allowed, and the state the
reducer returns is the next state of the play). The AI wins exactly in the plays
where the human has, on some turn, handed over after taking fewer tokens than it
was allowed; if the human takes all 3 tokens on every turn, the winner is the
human. -/
theorem agent_first_outcome (n taken : Nat) (allowed : Int) (passed : Bool) (s : State)
    (h : AiFirstPlay n taken allowed passed s) :
    (s.winner ≠ JSVal.undefined → s.winner = JSVal.bool (!passed)) ∧
    (s.winner = JSVal.bool false ↔ (s.winner ≠ JSVal.undefined ∧ passed = true)) ∧
    n ≤ 15 ∧
    (s.winner = JSVal.undefined →
      (reducer s (takeAction s)).tokensLeft = s.tokensLeft - 1 ∧
      (s.playerIsHuman = true →
        (taken : Int) < allowed ∧
        AiFirstPlay (n + 1) (taken + 1) allowed passed (reducer s (takeAction s))) ∧
      (s.playerIsHuman = false →
        AiFirstPlay (n + 1) 0 (reducer s (takeAction s)).canTake passed
          (reducer s (takeAction s)))) := by
  have hinv := aiFirstInv_of_play h
  have hwin : s.winner ≠ JSVal.undefined → s.winner = JSVal.bool (!passed) := by
    intro hdef
    rcases hinv with ⟨hpass, h1 | h1 | h1⟩ | ⟨hpass, h1 | h1 | h1⟩
    · exact absurd h1.1 hdef
    · exact absurd h1.1 hdef
    · rw [h1.1, hpass]; rfl
    · exact absurd h1.1 hdef
    · exact absurd h1.1 hdef
    · rw [h1.1, hpass]; rfl
  refine ⟨hwin, ?_, ?_, ?_⟩
  · constructor
    · intro hf
      have hdef : s.winner ≠ JSVal.undefined := by rw [hf]; decide
      refine ⟨hdef, ?_⟩
      have := hwin hdef
      rw [hf] at this
      cases passed <;> simp_all
    · rintro ⟨hdef, hpass⟩
      rw [hwin hdef, hpass]
      rfl
  · rcases hinv with ⟨_, h1 | h1 | h1⟩ | ⟨_, h1 | h1 | h1⟩
    · obtain ⟨_, _, _, _, _, h6⟩ := h1; omega
    · obtain ⟨_, _, _, _, _, _, _, h8⟩ := h1; omega
    · obtain ⟨_, _, h3⟩ := h1; omega
    · obtain ⟨_, _, _, _, _, _, h7⟩ := h1; omega
    · obtain ⟨_, _, _, _, _, _, _, h8⟩ := h1; omega
    · obtain ⟨_, _, h3⟩ := h1; omega
  · intro hw
    refine ⟨take_tokensLeft s hw, ?_, ?_⟩
    · intro hp
      have hlt : (taken : Int) < allowed := by
        rcases hinv with ⟨_, h1 | h1 | h1⟩ | ⟨_, h1 | h1 | h1⟩
        · have hp2 := h1.2.1
          rw [hp] at hp2; exact absurd hp2 (by decide)
        · obtain ⟨_, _, ha, hc, hc1, _⟩ := h1
          omega
        · rw [hw] at h1; exact absurd h1.1 (by decide)
        · have hp2 := h1.2.1
          rw [hp] at hp2; exact absurd hp2 (by decide)
        · obtain ⟨_, _, ha, hc, hc1, _⟩ := h1
          omega
        · rw [hw] at h1; exact absurd h1.1 (by decide)
      exact ⟨hlt, AiFirstPlay.humanTake h hw hp hlt⟩
    · intro hp
      exact AiFirstPlay.aiTake h hw hp

theorem agent_first_outcome_witness :
    (play initialState [Move.setPlayerToHuman false, Move.take, Move.take, Move.take,
      Move.take, Move.take, Move.take, Move.take, Move.take, Move.take, Move.take, Move.take,
      Move.take]).winner = JSVal.bool true := by
  have p1 := AiFirstPlay.aiTake AiFirstPlay.start (by decide) (by decide)
  have p2 := AiFirstPlay.humanTake p1 (by decide) (by decide) (by decide)
  have p3 := AiFirstPlay.humanTake p2 (by decide) (by decide) (by decide)
  have p4 := AiFirstPlay.humanTake p3 (by decide) (by decide) (by decide)
  have p5 := AiFirstPlay.aiTake p4 (by decide) (by decide)
  have p6 := AiFirstPlay.humanTake p5 (by decide) (by decide) (by decide)
  have p7 := AiFirstPlay.humanTake p6 (by decide) (by decide) (by decide)
  have p8 := AiFirstPlay.humanTake p7 (by decide) (by decide) (by decide)
  have p9 := AiFirstPlay.aiTake p8 (by decide) (by decide)
  have p10 := AiFirstPlay.humanTake p9 (by decide) (by decide) (by decide)
  have p11 := AiFirstPlay.humanTake p10 (by decide) (by decide) (by decide)
  have p12 := AiFirstPlay.humanTake p11 (by decide) (by decide) (by decide)
  exact (agent_first_outcome _ _ _ _ _ p12).1 (by decide)

/-- C15. After the AI completes its planned take the pool is a multiple of 4. For
every `n` from 1 to 12 that is not a multiple of 4, when the AI is given the turn
with `n` tokens left (by `SET_PLAYER_TO_HUMAN false`, or by the human's
`TAKE_TOKEN` using up its allowance) and `TAKE_TOKEN` is dispatched until the turn
passes or the game ends: exactly `n mod 4` takes are dispatched,
`tokensLeft = n - n mod 4` is a multiple of 4, and either the pool is empty with
`winner === false` or the human holds the turn with `canTake = topMove = 3`. -/
theorem ai_leaves_multiple_of_four (s : State) (n : Int) (hw : s.winner = JSVal.undefined)
    (hp : s.playerIsHuman = true) (h1 : 1 ≤ n) (h12 : n ≤ 12) (h4 : n % 4 ≠ 0) :
    (s.tokensLeft = n →
      AiLeavesMultipleOfFour n (reducer s (Action.SET_PLAYER_TO_HUMAN false))) ∧
    (s.canTake = 1 → s.tokensLeft = n + 1 →
      AiLeavesMultipleOfFour n (reducer s (takeAction s))) := by
  constructor
  · intro ht
    obtain ⟨e1, e2, e3, _, e5⟩ := set_fields s false hw (by rw [hp]; decide)
    rw [aiPlan_eq _ (by omega)] at e5
    simp only [Bool.false_eq_true, if_false] at e5
    refine aiLeaves_of_assigned n _ e3 e2 (by rw [e1, ht]) ?_ h1 h12 h4
    rw [e5, ht, if_neg h4]
  · intro hc ht
    obtain ⟨e1, e2, e3, _, e5⟩ := take_pass_fields s hw hc (by omega)
    rw [aiPlan_eq _ (by omega)] at e5
    rw [hp] at e2
    rw [if_pos hp] at e5
    have hn : s.tokensLeft - 1 = n := by omega
    rw [hn] at e1 e5
    refine aiLeaves_of_assigned n _ e3 (by simpa using e2) e1 ?_ h1 h12 h4
    rw [e5, if_neg h4]

theorem ai_leaves_multiple_of_four_witness :
    AiLeavesMultipleOfFour 10
      (reducer { initialState with tokensLeft := 10, canTake := 1 }
        (Action.SET_PLAYER_TO_HUMAN false)) :=
  (ai_leaves_multiple_of_four { initialState with tokensLeft := 10, canTake := 1 } 10
    rfl rfl (by decide) (by decide) (by decide)).1 rfl

/-! ## Narration -/

/-- C18. Human narration template. For a state with `playerIsHuman` true whose
`winner` is not truthy (unset or `false`), with `canTake = c` and `topMove = t`,
`getFeedback` is the turn prefix (only if `c = 3`), then `You can take`, `up to`
(unless `c = 1`), the decimal form of `c`, `more` (unless `c = t`), `tokens` or
`token`, and a period (if `c = 3`) or the invitation to let the AI play. With
`winner` true it is the win message. -/
theorem human_narration_template (s : State) (hp : s.playerIsHuman = true) :
    (s.winner.truthy = false →
      getFeedback s =
        (if s.canTake = 3 then "It's your turn now. " else "") ++
          ("You can take" ++ (if s.canTake = 1 then "" else " up to") ++ " " ++
            toString s.canTake ++ (if s.topMove = some s.canTake then "" else " more") ++ " " ++
            (if s.canTake > 1 then "tokens" else "token") ++
            (if s.canTake = 3 then "." else " or let the AI play."))) ∧
    (s.winner = JSVal.bool true → getFeedback s = "You took the last token. You win!") ∧
    (s.winner = JSVal.undefined ∨ s.winner = JSVal.bool false → s.winner.truthy = false) := by
  refine ⟨?_, ?_, ?_⟩
  · intro hw
    have hrep := replace_canTake (if s.canTake = 1 then "" else " up to") (toString s.canTake)
      (if s.topMove = some s.canTake then "" else " more")
      (if s.canTake > 1 then "tokens" else "token")
      (if s.canTake = 3 then "." else STRINGS.letAIPlay)
      (by split_ifs <;> decide) (intToString_no_percent _)
      (by split_ifs <;> decide) (by split_ifs <;> decide)
    simp only [getFeedback, hp, hw, if_true, Bool.false_eq_true, if_false, hrep]
    rfl
  · intro hw
    simp [getFeedback, hp, hw, JSVal.truthy, STRINGS.youWin]
  · rintro (hw | hw) <;> rw [hw] <;> rfl

theorem human_narration_template_witness :
    getFeedback { initialState with canTake := 2, topMove := some 3 } =
      (if (2 : Int) = 3 then "It's your turn now. " else "") ++
        ("You can take" ++ (if (2 : Int) = 1 then "" else " up to") ++ " " ++
          toString (2 : Int) ++ (if some (3 : Int) = some 2 then "" else " more") ++ " " ++
          (if (2 : Int) > 1 then "tokens" else "token") ++
          (if (2 : Int) = 3 then "." else " or let the AI play.")) :=
  (human_narration_template { initialState with canTake := 2, topMove := some 3 } rfl).1 rfl

/-- C19 fails on the code for small pools. The state below is reached from
`initialState` by the reducer's own actions: the AI holds the turn with 2 tokens
left. Giving the turn to the human there yields `canTake = topMove = 2` (no token
taken yet this turn), and the narration of that state does not begin with the
turn prefix and does end with the invitation to let the AI play. -/
theorem turn_start_narration_small_pool :
    (play initialState [Move.take, Move.take, Move.take, Move.take, Move.take, Move.take,
      Move.take, Move.take, Move.take, Move.take, Move.setPlayerToHuman false]).tokensLeft = 2 ∧
    (play initialState [Move.take, Move.take, Move.take, Move.take, Move.take, Move.take,
      Move.take, Move.take, Move.take, Move.take, Move.setPlayerToHuman false,
      Move.setPlayerToHuman true]).playerIsHuman = true ∧
    (play initialState [Move.take, Move.take, Move.take, Move.take, Move.take, Move.take,
      Move.take, Move.take, Move.take, Move.take, Move.setPlayerToHuman false,
      Move.setPlayerToHuman true]).canTake = 2 ∧
    (play initialState [Move.take, Move.take, Move.take, Move.take, Move.take, Move.take,
      Move.take, Move.take, Move.take, Move.take, Move.setPlayerToHuman false,
      Move.setPlayerToHuman true]).topMove = some 2 ∧
    getFeedback (play initialState [Move.take, Move.take, Move.take, Move.take, Move.take,
      Move.take, Move.take, Move.take, Move.take, Move.take, Move.setPlayerToHuman false,
      Move.setPlayerToHuman true]) = "You can take up to 2 tokens or let the AI play." ∧
    ¬ ("It's your turn now. ".data <+: (getFeedback (play initialState [Move.take, Move.take,
      Move.take, Move.take, Move.take, Move.take, Move.take, Move.take, Move.take, Move.take,
      Move.setPlayerToHuman false, Move.setPlayerToHuman true])).data) ∧
    " or let the AI play.".data <:+ (getFeedback (play initialState [Move.take, Move.take,
      Move.take, Move.take, Move.take, Move.take, Move.take, Move.take, Move.take, Move.take,
      Move.setPlayerToHuman false, Move.setPlayerToHuman true])).data := by
  decide

/-- C20. Ordinal lookup is always in range. Along every sequence of moves from
`initialState`, every call of `getFeedback` made by the next action that reaches
the AI's ordinal branch has `topMove` set with `topMove ≥ canTake` and
`0 ≤ topMove - canTake - 1 ≤ 2`; `topMove - canTake` is the number of tokens the
AI has taken in its turn (the one being taken included), the lookup yields the
ordinal of that number, and the narration is built from it. -/
theorem ordinal_lookup_in_range (ms : List Move) (m : Move) (x : State)
    (hx : x ∈ getFeedbackCalls (play initialState ms) (m.action (play initialState ms)))
    (hb : ReachesOrdinalBranch x) :
    ∃ top : Int, x.topMove = some top ∧ x.canTake ≤ top ∧ 0 ≤ top - x.canTake - 1 ∧
      top - x.canTake - 1 ≤ 2 ∧
      top - x.canTake = ((playCounting initialState 0 ms).2 : Int) + 1 ∧
      ∃ name : String,
        STRINGS.ordinals.get? (playCounting initialState 0 ms).2 = some name ∧
        ordinalAt (x.topMove.map (fun topMove => topMove - x.canTake - 1)) = name ∧
        getFeedback x = "The AI took a " ++ name ++ " token." := by
  have hcount := counted_playCounting ms initialState 0 counted_initial
  rw [playCounting_fst] at hcount
  obtain ⟨top, g1, g2, g3, g4, g5⟩ :=
    ordinal_call_in_range _ _ hcount m x hx hb
  refine ⟨top, g1, g2, g3, g4, g5, ?_⟩
  obtain ⟨hp, hw, ht, hne, h1⟩ := hb
  have hfb : getFeedback x =
      replace STRINGS.nthToken [ordinalAt (x.topMove.map (fun t => t - x.canTake - 1))] := by
    simp [getFeedback, hp, hw, ht, hne, h1]
  generalize (playCounting initialState 0 ms).2 = k at g5 ⊢
  have hk : k ≤ 2 := by omega
  have hidx : top - x.canTake - 1 = (k : Int) := by omega
  rw [hfb, g1, Option.map_some', hidx]
  interval_cases k
  · exact ⟨"first", rfl, rfl, by decide⟩
  · exact ⟨"second", rfl, rfl, by decide⟩
  · exact ⟨"third", rfl, rfl, by decide⟩

theorem ordinal_lookup_in_range_witness :
    ∃ top : Int,
      ({ play initialState [Move.take, Move.take, Move.setPlayerToHuman false] with
          tokensLeft := 9, canTake := 1 } : State).topMove = some top ∧
      (1 : Int) ≤ top ∧ 0 ≤ top - 1 - 1 ∧ top - 1 - 1 ≤ 2 ∧
      top - 1 =
        ((playCounting initialState 0
          [Move.take, Move.take, Move.setPlayerToHuman false]).2 : Int) + 1 ∧
      ∃ name : String,
        STRINGS.ordinals.get? (playCounting initialState 0
          [Move.take, Move.take, Move.setPlayerToHuman false]).2 = some name ∧
        ordinalAt (({ play initialState [Move.take, Move.take, Move.setPlayerToHuman false] with
          tokensLeft := 9, canTake := 1 } : State).topMove.map (fun topMove => topMove - 1 - 1))
          = name ∧
        getFeedback { play initialState [Move.take, Move.take, Move.setPlayerToHuman false] with
          tokensLeft := 9, canTake := 1 } = "The AI took a " ++ name ++ " token." :=
  ordinal_lookup_in_range [Move.take, Move.take, Move.setPlayerToHuman false] Move.take
    { play initialState [Move.take, Move.take, Move.setPlayerToHuman false] with
        tokensLeft := 9, canTake := 1 }
    (by decide) (by unfold ReachesOrdinalBranch; decide)

/-! ## Unrecognised actions and the payload of `TAKE_TOKEN` -/

/-- The reading of C21 fails: on `initialState`, an action whose type is none of
the three recognised ones makes the reducer return a state (a copy of the one it
was given); nothing is thrown. -/
theorem unknown_action_fails_fast_counterexample :
    ¬ (∀ (s : State) (type : String), s.winner = JSVal.undefined →
        type ≠ "NEW_GAME" → type ≠ "SET_PLAYER_TO_HUMAN" → type ≠ "TAKE_TOKEN" →
        ∃ message : String, reducerCompletion s (Action.other type) = Completion.thrown message) := by
  intro h
  obtain ⟨message, hm⟩ := h initialState "UNDO" rfl (by decide) (by decide) (by decide)
  simp [reducerCompletion] at hm

/-- C21, amended. For every in-progress state and every action whose type is none
of `NEW_GAME`, `SET_PLAYER_TO_HUMAN` and `TAKE_TOKEN`, the reducer signals nothing:
it returns a new object that is a copy of the state it was given, equal to it in
every field. -/
theorem unknown_action_returns_copy (s : State) (type : String)
    (hw : s.winner = JSVal.undefined)
    (_h1 : type ≠ "NEW_GAME") (_h2 : type ≠ "SET_PLAYER_TO_HUMAN")
    (_h3 : type ≠ "TAKE_TOKEN") :
    reducerCompletion s (Action.other type) = Completion.returned (Returned.fresh s) ∧
    reducerReturned s (Action.other type) ≠ Returned.input ∧
    reducer s (Action.other type) = s := by
  have h : reducerReturned s (Action.other type) = Returned.fresh s := by
    simp [reducerReturned, hw]
  refine ⟨by rw [reducerCompletion, h], by rw [h]; simp, ?_⟩
  rw [reducer, h]
  rfl

theorem unknown_action_returns_copy_witness :
    reducerCompletion initialState (Action.other "UNDO")
        = Completion.returned (Returned.fresh initialState) ∧
    reducerReturned initialState (Action.other "UNDO") ≠ Returned.input ∧
    reducer initialState (Action.other "UNDO") = initialState :=
  unknown_action_returns_copy initialState "UNDO" rfl (by decide) (by decide) (by decide)

/-- C22. `TAKE_TOKEN` reads the pool from the action payload, not from the state:
two in-progress states that agree on every field other than `tokensLeft` and
`canTake` give equal results under the same payload, and the resulting
`tokensLeft` is the payload's `tokensLeft` minus one whatever the state's own
counts are. In particular a payload of 5 tokens on the initial state of 12 tokens
leaves 4. -/
theorem take_token_reads_payload (s1 s2 : State) (t c : Int)
    (hw1 : s1.winner = JSVal.undefined) (hw2 : s2.winner = JSVal.undefined)
    (hp : s1.playerIsHuman = s2.playerIsHuman) (hf : s1.feedback = s2.feedback)
    (htop : s1.topMove = s2.topMove) :
    reducer s1 (Action.TAKE_TOKEN t c) = reducer s2 (Action.TAKE_TOKEN t c) ∧
    (reducer s1 (Action.TAKE_TOKEN t c)).tokensLeft = t - 1 ∧
    (reducer initialState (Action.TAKE_TOKEN 5 2)).tokensLeft = 4 ∧
    (reducer initialState (Action.TAKE_TOKEN 5 2)).canTake = 1 := by
  have e1 : reducer s1 (Action.TAKE_TOKEN t c) = takeToken s1 t c := by
    simp [reducer, reducerReturned, Returned.value, hw1]
  have e2 : reducer s2 (Action.TAKE_TOKEN t c) = takeToken s2 t c := by
    simp [reducer, reducerReturned, Returned.value, hw2]
  refine ⟨?_, ?_, by decide, by decide⟩
  · rw [e1, e2]
    exact takeToken_congr s1 s2 t c hp hf htop (by rw [hw1, hw2])
  · rw [e1]
    exact takeToken_tokensLeft s1 t c

theorem take_token_reads_payload_witness :
    reducer initialState (Action.TAKE_TOKEN 5 2)
        = reducer { initialState with tokensLeft := 7, canTake := 1 } (Action.TAKE_TOKEN 5 2) ∧
    (reducer initialState (Action.TAKE_TOKEN 5 2)).tokensLeft = 5 - 1 :=
  ⟨(take_token_reads_payload initialState { initialState with tokensLeft := 7, canTake := 1 }
      5 2 rfl rfl rfl rfl rfl).1,
   (take_token_reads_payload initialState { initialState with tokensLeft := 7, canTake := 1 }
      5 2 rfl rfl rfl rfl rfl).2.1⟩

end LinearNim
